import Mathlib

/-
  Verification of the WID / HLC-WID identifier codec (src/c/src/wid.h).

  Strings are modelled as `List Char`; C pointer arithmetic `s + off`
  becomes `s.drop off`, reading `n` characters becomes `.take n`, and a
  single character read `s[i]` becomes `s.getD i nulChar` (reading the
  NUL terminator past the end).  C `int` / `int64_t` parameters are
  modelled as `Int`; no arithmetic in the modelled code paths can
  overflow 64 bits (counter values are bounded by `10^18 - 1`), so
  plain `Int` is faithful.
-/

namespace Wid

/-- NUL character, the C string terminator (read by out-of-range `getD`). -/
def nulChar : Char := Char.ofNat 0

/-- `wid_is_digit` from wid.h: `c >= '0' && c <= '9'`. -/
def wid_is_digit (c : Char) : Bool := 48 ≤ c.toNat && c.toNat ≤ 57

/-- `wid_is_alpha` from wid.h. -/
def wid_is_alpha (c : Char) : Bool :=
  (97 ≤ c.toNat && c.toNat ≤ 122) || (65 ≤ c.toNat && c.toNat ≤ 90)

/-- `wid_is_alnum` from wid.h. -/
def wid_is_alnum (c : Char) : Bool := wid_is_digit c || wid_is_alpha c

/-- `wid_is_lower_hex` from wid.h: `[0-9a-f]`. -/
def wid_is_lower_hex (c : Char) : Bool :=
  (48 ≤ c.toNat && c.toNat ≤ 57) || (97 ≤ c.toNat && c.toNat ≤ 102)

/-- `wid_is_node_char` from wid.h: alphanumeric or underscore. -/
def wid_is_node_char (c : Char) : Bool := wid_is_alnum c || c == '_'

/-- `wid_valid_node` from wid.h: non-empty, all node characters. -/
def wid_valid_node (node : List Char) : Bool :=
  !node.isEmpty && node.all wid_is_node_char

/-- `wid_is_leap_year` from wid.h (years at use sites are non-negative,
so `Int.emod` agrees with C `%`). -/
def wid_is_leap_year (year : Int) : Bool :=
  if year % 400 = 0 then true
  else if year % 100 = 0 then false
  else year % 4 = 0

/-- The `days_in_month` table from `wid_valid_ymdhms`. -/
def days_in_month : List Int := [31, 28, 31, 30, 31, 30, 31, 31, 30, 31, 30, 31]

/-- `wid_valid_ymdhms` from wid.h. -/
def wid_valid_ymdhms (year month day hour minute second : Int) : Bool :=
  if month < 1 || month > 12 then false
  else if hour < 0 || hour > 23 then false
  else if minute < 0 || minute > 59 then false
  else if second < 0 || second > 59 then false
  else
    let dim0 := days_in_month.getD (month.toNat - 1) 0
    let dim := if month = 2 && wid_is_leap_year year then 29 else dim0
    1 ≤ day && day ≤ dim

/-- `wid_valid_suffix` from wid.h: empty suffix is always accepted;
otherwise a `-` followed by exactly `Z` lowercase hex digits. -/
def wid_valid_suffix (suffix : List Char) (Z : Int) : Bool :=
  match suffix with
  | [] => true
  | c :: pad =>
    if c ≠ '-' then false
    else if Z ≤ 0 then false
    else if (pad.length : Int) ≠ Z then false
    else pad.all wid_is_lower_hex

/-- Time unit (`wid_time_unit_t`). -/
inductive TimeUnit : Type
  | sec : TimeUnit
  | ms : TimeUnit
deriving DecidableEq, Repr

/-- `wid_timestamp_len` from wid.h: 18 for ms, 15 for sec. -/
def wid_timestamp_len (unit : TimeUnit) : Nat :=
  match unit with
  | .ms => 18
  | .sec => 15

/-- Loop body of `wid_parse_digits_i64`. -/
def wid_parse_digits_go (v : Int) : List Char → Int
  | [] => v
  | c :: cs =>
    if wid_is_digit c then wid_parse_digits_go (v * 10 + ((c.toNat : Int) - 48)) cs
    else -1

/-- `wid_parse_digits_i64(s + off, n)` from wid.h, applied to the segment
`(s.drop off).take n`: returns the decimal value, or -1 on a non-digit. -/
def wid_parse_digits_i64 (s : List Char) : Int :=
  wid_parse_digits_go 0 s

/-- The seven calendar fields read out of the fixed-width timestamp. -/
structure TsFields where
  year : Int
  month : Int
  day : Int
  hour : Int
  minute : Int
  second : Int
  millisecond : Int
deriving DecidableEq, Repr

/-- `wid_parse_timestamp` from wid.h, with the out-parameters gathered
into a `TsFields` (checks in the source's order: sentinel `T`, digit
runs, calendar validity, milliseconds, sentinel `.`). -/
def wid_parse_timestamp (s : List Char) (unit : TimeUnit) : Option TsFields :=
  let ts_len := wid_timestamp_len unit
  if s.getD 8 nulChar ≠ 'T' then none
  else if !((s.take 8).all wid_is_digit) then none
  else if !(((s.drop 9).take 6).all wid_is_digit) then none
  else
    let y := wid_parse_digits_i64 (s.take 4)
    let mo := wid_parse_digits_i64 ((s.drop 4).take 2)
    let d := wid_parse_digits_i64 ((s.drop 6).take 2)
    let h := wid_parse_digits_i64 ((s.drop 9).take 2)
    let mi := wid_parse_digits_i64 ((s.drop 11).take 2)
    let se := wid_parse_digits_i64 ((s.drop 13).take 2)
    if !(wid_valid_ymdhms y mo d h mi se) then none
    else
      let msRes : Option Int :=
        match unit with
        | .ms =>
          if !(((s.drop 15).take 3).all wid_is_digit) then none
          else
            let ms := wid_parse_digits_i64 ((s.drop 15).take 3)
            if ms < 0 || ms > 999 then none else some ms
        | .sec => some 0
      match msRes with
      | none => none
      | some ms =>
        if s.getD ts_len nulChar ≠ '.' then none
        else some ⟨y, mo, d, h, mi, se, ms⟩

/-- `wid_validate_ex` from wid.h. -/
def wid_validate_ex (s : List Char) (W Z : Int) (unit : TimeUnit) : Bool :=
  if W ≤ 0 || Z < 0 then false
  else if W > 18 || Z > 64 then false
  else
    let ts_len := wid_timestamp_len unit
    let base_len := ts_len + 1 + W.toNat + 1
    if s.length < base_len then false
    else if (wid_parse_timestamp s unit).isNone then false
    else if s.getD (ts_len + 1 + W.toNat) nulChar ≠ 'Z' then false
    else if !(((s.drop (ts_len + 1)).take W.toNat).all wid_is_digit) then false
    else wid_valid_suffix (s.drop base_len) Z

/-- `hlc_wid_validate_ex` from wid.h.  The node scan (`for p = node_start
... break on '-', fail on a non-node char`) is the `takeWhile` /
`dropWhile` split at the first `-`. -/
def hlc_wid_validate_ex (s : List Char) (W Z : Int) (unit : TimeUnit) : Bool :=
  if W ≤ 0 || Z < 0 then false
  else if W > 18 || Z > 64 then false
  else
    let ts_len := wid_timestamp_len unit
    let prefix_len := ts_len + 1 + W.toNat + 1
    if s.length < prefix_len + 2 then false
    else if (wid_parse_timestamp s unit).isNone then false
    else if s.getD (ts_len + 1 + W.toNat) nulChar ≠ 'Z' then false
    else if s.getD (ts_len + 1 + W.toNat + 1) nulChar ≠ '-' then false
    else if !(((s.drop (ts_len + 1)).take W.toNat).all wid_is_digit) then false
    else
      let node_start := s.drop (prefix_len + 1)
      let node := node_start.takeWhile (fun c => c != '-')
      let suffix_from_dash := node_start.dropWhile (fun c => c != '-')
      if !(node.all wid_is_node_char) then false
      else if node.length = 0 then false
      else if suffix_from_dash.isEmpty then true
      else wid_valid_suffix suffix_from_dash Z

/-- `parsed_wid_t` from wid.h. -/
structure ParsedWid where
  raw : List Char
  year : Int
  month : Int
  day : Int
  hour : Int
  minute : Int
  second : Int
  millisecond : Int
  sequence : Int
  has_padding : Bool
  padding : List Char
deriving DecidableEq, Repr

/-- `parsed_hlc_wid_t` from wid.h (the `node[64]` buffer bounds the node
to at most 63 characters plus NUL). -/
structure ParsedHlcWid where
  raw : List Char
  year : Int
  month : Int
  day : Int
  hour : Int
  minute : Int
  second : Int
  millisecond : Int
  logical_counter : Int
  node : List Char
  has_padding : Bool
  padding : List Char
deriving DecidableEq, Repr

/-- `wid_parse_ex` from wid.h (the `out` pointer becomes an `Option`). -/
def wid_parse_ex (s : List Char) (W Z : Int) (unit : TimeUnit) :
    Option ParsedWid :=
  if !(wid_validate_ex s W Z unit) then none
  else
    let ts_len := wid_timestamp_len unit
    let base_len := ts_len + 1 + W.toNat + 1
    match wid_parse_timestamp s unit with
    | none => none
    | some f =>
      let seq := wid_parse_digits_i64 ((s.drop (ts_len + 1)).take W.toNat)
      if seq < 0 then none
      else
        match s.drop base_len with
        | [] =>
          some ⟨s, f.year, f.month, f.day, f.hour, f.minute, f.second,
                f.millisecond, seq, false, []⟩
        | _ :: pad =>
          if pad.length > 64 then none
          else
            some ⟨s, f.year, f.month, f.day, f.hour, f.minute, f.second,
                  f.millisecond, seq, true, pad⟩

/-- `hlc_wid_parse_ex` from wid.h: after validation, the node is the
segment up to the first `-` (C `strchr`); it must be shorter than the
64-byte `node` buffer. -/
def hlc_wid_parse_ex (s : List Char) (W Z : Int) (unit : TimeUnit) :
    Option ParsedHlcWid :=
  if !(hlc_wid_validate_ex s W Z unit) then none
  else
    let ts_len := wid_timestamp_len unit
    let prefix_len := ts_len + 1 + W.toNat + 1
    match wid_parse_timestamp s unit with
    | none => none
    | some f =>
      let lc := wid_parse_digits_i64 ((s.drop (ts_len + 1)).take W.toNat)
      if lc < 0 then none
      else
        let node_start := s.drop (prefix_len + 1)
        let node := node_start.takeWhile (fun c => c != '-')
        let from_dash := node_start.dropWhile (fun c => c != '-')
        if node.length = 0 || node.length ≥ 64 then none
        else
          match from_dash with
          | [] =>
            some ⟨s, f.year, f.month, f.day, f.hour, f.minute, f.second,
                  f.millisecond, lc, node, false, []⟩
          | _ :: pad =>
            if pad.length > 64 then none
            else
              some ⟨s, f.year, f.month, f.day, f.hour, f.minute, f.second,
                    f.millisecond, lc, node, true, pad⟩

/-! ### Decimal rendering (`snprintf` `%0*lld` and the grammar's SEQ/TS fields) -/

/-- Decimal digit character. -/
def digitChar (d : Nat) : Char := Char.ofNat (48 + d)

/-- Decimal digits of `v`, most significant first (what `%lld` prints
for a non-negative value). -/
def natToDigits (v : Nat) : List Char :=
  if _h : v < 10 then [digitChar v]
  else natToDigits (v / 10) ++ [digitChar (v % 10)]
termination_by v
decreasing_by exact Nat.div_lt_self (by omega) (by omega)

/-- Digits of `v` left-padded with zeros to `width` (wider values keep
all their digits, as with `printf`). -/
def padNum (v width : Nat) : List Char :=
  List.replicate (width - (natToDigits v).length) '0' ++ natToDigits v

/-- `snprintf("%0*lld", width, v)`: for a negative value the sign is
printed first and the zeros count toward the width. -/
def padNumInt (v : Int) (width : Nat) : List Char :=
  if v < 0 then '-' :: padNum v.natAbs (width - 1) else padNum v.toNat width

/-! ### UTC calendar decomposition (`gmtime` / `strftime` in `wid_fmt_tick`)

`wid_fmt_tick` defers to the C library's `gmtime`, which decomposes
non-negative epoch seconds by peeling off whole years from 1970 and
then whole months (glibc `__offtime`).  The generators only ever format
ticks `≥ 0` (their ticks start at 0 and never decrease), so the model
covers the non-negative domain. -/

/-- Length of a year: 366 in leap years. -/
def daysInYear (y : Int) : Nat := if wid_is_leap_year y then 366 else 365

/-- Month lengths, 1-based via index `m - 1`; February depends on leap. -/
def monthLengths (leap : Bool) : List Nat :=
  [31, if leap then 29 else 28, 31, 30, 31, 30, 31, 31, 30, 31, 30, 31]

/-- Year loop of the UTC decomposition: starting from 1970, subtract
whole years.  Returns the year and the zero-based day of year. -/
def civilYear (y : Int) (days : Nat) : Int × Nat :=
  if _h : days < daysInYear y then (y, days)
  else civilYear (y + 1) (days - daysInYear y)
termination_by days
decreasing_by
  have hy : 0 < daysInYear y := by unfold daysInYear; split <;> omega
  omega

/-- Month loop of the UTC decomposition, structurally recursive on the
number of months left to try. -/
def monthLoopGo (leap : Bool) : Nat → Nat → Nat → Nat × Nat
  | 0, _m, doy => (12, doy)
  | fuel + 1, m, doy =>
    let dim := (monthLengths leap).getD (m - 1) 31
    if doy < dim then (m, doy)
    else monthLoopGo leap fuel (m + 1) (doy - dim)

/-- Month loop of the UTC decomposition: subtract month lengths until
the day index fits; `m` is 1-based.  Returns the month and the
zero-based day of month. -/
def monthLoop (leap : Bool) (m doy : Nat) : Nat × Nat :=
  monthLoopGo leap (13 - m) m doy

/-- `(year, month, day)` of `1970-01-01` plus `days` in the proleptic
Gregorian calendar. -/
def civilFromDays (days : Nat) : Int × Nat × Nat :=
  let yd := civilYear 1970 days
  let md := monthLoop (wid_is_leap_year yd.1) 1 yd.2
  (yd.1, md.1, md.2 + 1)

/-- `wid_fmt_tick` from wid.h on a non-negative tick: split a ms tick
into seconds and milliseconds, decompose the seconds in UTC, and print
`%Y%m%dT%H%M%S` (year is ≥ 1970, hence at least four digits) plus
`%03d` milliseconds for the ms unit. -/
def wid_fmt_tick (unit : TimeUnit) (tick : Nat) : List Char :=
  let secs := match unit with | .ms => tick / 1000 | .sec => tick
  let msv : Nat := match unit with | .ms => tick % 1000 | .sec => 0
  let days := secs / 86400
  let rem := secs % 86400
  let c := civilFromDays days
  padNumInt c.1 4 ++ padNum c.2.1 2 ++ padNum c.2.2 2 ++ 'T' ::
    (padNum (rem / 3600) 2 ++ padNum (rem % 3600 / 60) 2 ++ padNum (rem % 60) 2 ++
      (match unit with | .ms => padNum msv 3 | .sec => []))

/-! ### Re-rendering parsed fields (the grammar of §3 / the emitters' format strings) -/

/-- Render the fixed-width timestamp from parsed calendar fields, per
the grammar `TS(u)` (the format the emitters print). -/
def render_timestamp (f : TsFields) (unit : TimeUnit) : List Char :=
  padNumInt f.year 4 ++ padNumInt f.month 2 ++ padNumInt f.day 2 ++ 'T' ::
    (padNumInt f.hour 2 ++ padNumInt f.minute 2 ++ padNumInt f.second 2 ++
      (match unit with | .ms => padNumInt f.millisecond 3 | .sec => []))

/-- Re-render a parsed WID: `TS(u) "." SEQ(W) "Z" ["-" PAD]`. -/
def render_wid (p : ParsedWid) (W : Int) (unit : TimeUnit) : List Char :=
  render_timestamp ⟨p.year, p.month, p.day, p.hour, p.minute, p.second, p.millisecond⟩ unit ++
    '.' :: (padNumInt p.sequence W.toNat ++ 'Z' ::
      (if p.has_padding then '-' :: p.padding else []))

/-- Re-render a parsed HLC-WID: `TS(u) "." SEQ(W) "Z" "-" NODE ["-" PAD]`. -/
def render_hlc (p : ParsedHlcWid) (W : Int) (unit : TimeUnit) : List Char :=
  render_timestamp ⟨p.year, p.month, p.day, p.hour, p.minute, p.second, p.millisecond⟩ unit ++
    '.' :: (padNumInt p.logical_counter W.toNat ++ 'Z' :: '-' ::
      (p.node ++ (if p.has_padding then '-' :: p.padding else [])))

/-! ### Generators -/

/-- Loop of `wid_pow10_i64`: clamps at `INT64_MAX` (`INT64_MAX / 10`
truncates to 922337203685477580). -/
def wid_pow10_go (v : Int) : Nat → Int
  | 0 => v
  | n + 1 =>
    if v > 922337203685477580 then 9223372036854775807
    else wid_pow10_go (v * 10) n

/-- `wid_pow10_i64` from wid.h. -/
def wid_pow10_i64 (n : Nat) : Int := wid_pow10_go 1 n

/-- `wid_gen_t` from wid.h. -/
structure WidGen where
  W : Int
  Z : Int
  time_unit : TimeUnit
  last_tick : Int
  last_seq : Int
  max_seq : Int
deriving DecidableEq, Repr

/-- `wid_gen_init_ex` from wid.h: out-of-range parameters are replaced
(`W ≤ 0` → default 4, `Z < 0` → default 6) or clamped (18 / 64); the
function cannot fail. -/
def wid_gen_init_ex (W Z : Int) (unit : TimeUnit) : WidGen :=
  let W1 := if W > 0 then W else 4
  let Z1 := if Z ≥ 0 then Z else 6
  let W2 := if W1 > 18 then 18 else W1
  let Z2 := if Z1 > 64 then 64 else Z1
  ⟨W2, Z2, unit, 0, -1, wid_pow10_i64 W2.toNat - 1⟩

/-- State update of `wid_gen_next` from wid.h, with the wall-clock read
`wid_now_tick` passed in as `now_tick`. -/
def wid_gen_next_state (g : WidGen) (now_tick : Int) : WidGen :=
  let tick0 := if now_tick > g.last_tick then now_tick else g.last_tick
  let seq0 := if tick0 = g.last_tick then g.last_seq + 1 else 0
  let tick := if seq0 > g.max_seq then tick0 + 1 else tick0
  let seq := if seq0 > g.max_seq then 0 else seq0
  { g with last_tick := tick, last_seq := seq }

/-- The string printed by `wid_gen_next` from the updated state (`tick`
and `seq` equal the new `last_tick` / `last_seq`); `pad` stands for the
`wid_random_hex` output used when `Z > 0`. -/
def wid_gen_emit (g : WidGen) (pad : List Char) : List Char :=
  wid_fmt_tick g.time_unit g.last_tick.toNat ++ '.' ::
    (padNumInt g.last_seq g.W.toNat ++ 'Z' ::
      (if g.Z > 0 then '-' :: pad else []))

/-- Every output of `wid_random_hex(buf, len)`: exactly `len` characters
drawn from the table `"0123456789abcdef"`. -/
def wid_random_hex_output (pad : List Char) (len : Nat) : Bool :=
  pad.length == len && pad.all wid_is_lower_hex

/-- `hlc_wid_gen_t` from wid.h. -/
structure HlcGen where
  W : Int
  Z : Int
  time_unit : TimeUnit
  node : List Char
  pt : Int
  lc : Int
  max_lc : Int
deriving DecidableEq, Repr

/-- `hlc_wid_gen_init_ex` from wid.h: fails exactly when the node fails
the NODE grammar; W/Z are replaced (`W ≤ 0` → 4, `Z < 0` → 0) or
clamped (18 / 64); `strncpy` keeps at most 63 node characters. -/
def hlc_wid_gen_init_ex (node : List Char) (W Z : Int) (unit : TimeUnit) :
    Option HlcGen :=
  if !(wid_valid_node node) then none
  else
    let W1 := if W > 0 then W else 4
    let Z1 := if Z ≥ 0 then Z else 0
    let W2 := if W1 > 18 then 18 else W1
    let Z2 := if Z1 > 64 then 64 else Z1
    some ⟨W2, Z2, unit, node.take 63, 0, 0, wid_pow10_i64 W2.toNat - 1⟩

/-- `hlc_wid_rollover_if_needed` from wid.h. -/
def hlc_wid_rollover_if_needed (g : HlcGen) : HlcGen :=
  if g.lc > g.max_lc then { g with pt := g.pt + 1, lc := 0 } else g

/-- `hlc_wid_observe` from wid.h, with the wall-clock read passed in as
`now`. -/
def hlc_wid_observe (g : HlcGen) (now remote_pt remote_lc : Int) :
    Option HlcGen :=
  if remote_pt < 0 || remote_lc < 0 then none
  else
    let new_pt1 := if g.pt > now then g.pt else now
    let new_pt := if remote_pt > new_pt1 then remote_pt else new_pt1
    let lc :=
      if new_pt = g.pt ∧ new_pt = remote_pt then
        (if g.lc > remote_lc then g.lc else remote_lc) + 1
      else if new_pt = g.pt then g.lc + 1
      else if new_pt = remote_pt then remote_lc + 1
      else 0
    some (hlc_wid_rollover_if_needed { g with pt := new_pt, lc := lc })

/-- State update of `hlc_wid_gen_next` from wid.h. -/
def hlc_wid_gen_next_state (g : HlcGen) (now : Int) : HlcGen :=
  hlc_wid_rollover_if_needed
    (if now > g.pt then { g with pt := now, lc := 0 }
     else { g with lc := g.lc + 1 })

/-- The string printed by `hlc_wid_gen_next` from the updated state. -/
def hlc_wid_gen_emit (g : HlcGen) (pad : List Char) : List Char :=
  wid_fmt_tick g.time_unit g.pt.toNat ++ '.' ::
    (padNumInt g.lc g.W.toNat ++ 'Z' :: '-' ::
      (g.node ++ (if g.Z > 0 then '-' :: pad else [])))

/-- WID generator states reachable from initialization by `next` calls
(with arbitrary, possibly backward-jumping wall-clock reads). -/
inductive WidReach : WidGen → Prop
  | init (W Z : Int) (unit : TimeUnit) : WidReach (wid_gen_init_ex W Z unit)
  | next (g : WidGen) (now : Int) : WidReach g →
      WidReach (wid_gen_next_state g now)

/-- HLC generator states reachable from initialization by `next` and
successful `observe` calls. -/
inductive HlcReach : HlcGen → Prop
  | init (node : List Char) (W Z : Int) (unit : TimeUnit) (g : HlcGen) :
      hlc_wid_gen_init_ex node W Z unit = some g → HlcReach g
  | next (g : HlcGen) (now : Int) : HlcReach g →
      HlcReach (hlc_wid_gen_next_state g now)
  | observe (g : HlcGen) (now rpt rlc : Int) (g1 : HlcGen) : HlcReach g →
      hlc_wid_observe g now rpt rlc = some g1 → HlcReach g1

/-- `n` successive `wid_gen_next` calls, all reading the same wall-clock
tick `now`. -/
def wid_gen_iterate (g : WidGen) (now : Int) : Nat → WidGen
  | 0 => g
  | n + 1 => wid_gen_next_state (wid_gen_iterate g now n) now

/-- Strict lexicographic order on `(tick, counter)` pairs. -/
def pairLt (a b : Int × Int) : Prop :=
  a.1 < b.1 ∨ (a.1 = b.1 ∧ a.2 < b.2)

/-! ### Lemmas: decimal digits and zero-padding -/

/-- Value of a digit string (the mathematical reading of the
`wid_parse_digits_i64` accumulator loop). -/
def digitsValNat (cs : List Char) : Nat :=
  cs.foldl (fun a c => a * 10 + (c.toNat - 48)) 0

theorem digitChar_isDigit : ∀ d : Nat, d < 10 → wid_is_digit (digitChar d) = true := by
  decide

theorem toNat_digitChar : ∀ d : Nat, d < 10 → (digitChar d).toNat = 48 + d := by
  decide

theorem natToDigits_all_digits (v : Nat) :
    (natToDigits v).all wid_is_digit = true := by
  induction v using Nat.strong_induction_on with
  | _ v ih =>
    unfold natToDigits
    split
    · simpa using digitChar_isDigit v (by omega)
    · rename_i h
      rw [List.all_append, Bool.and_eq_true]
      refine And.intro ?_ ?_
      · exact ih (v / 10) (Nat.div_lt_self (by omega) (by omega))
      · simpa using digitChar_isDigit (v % 10) (Nat.mod_lt _ (by omega))

theorem natToDigits_ne_nil (v : Nat) : natToDigits v ≠ [] := by
  unfold natToDigits
  split
  · simp
  · simp

theorem length_natToDigits_le (n : Nat) :
    ∀ v : Nat, v < 10 ^ n → 1 ≤ n → (natToDigits v).length ≤ n := by
  induction n with
  | zero => intro v _ h; omega
  | succ k ih =>
    intro v hv _
    unfold natToDigits
    split
    · simp only [List.length_cons, List.length_nil]; omega
    · rename_i h
      rw [List.length_append]
      have hk : 1 ≤ k := by
        by_contra hk0
        have hke : k = 0 := by omega
        subst hke
        simp only [pow_succ, pow_zero, one_mul] at hv
        omega
      have hdiv : v / 10 < 10 ^ k := by
        rw [Nat.div_lt_iff_lt_mul (by omega : 0 < 10)]
        rw [pow_succ] at hv
        omega
      have := ih (v / 10) hdiv hk
      simp only [List.length_cons, List.length_nil]
      omega

theorem digitsVal_foldl_acc (cs : List Char) :
    ∀ a : Nat, cs.foldl (fun a c => a * 10 + (c.toNat - 48)) a =
      a * 10 ^ cs.length + digitsValNat cs := by
  induction cs with
  | nil => intro a; simp [digitsValNat]
  | cons c cs ih =>
    intro a
    have hrhs : digitsValNat (c :: cs) =
        (c.toNat - 48) * 10 ^ cs.length + digitsValNat cs := by
      rw [digitsValNat, List.foldl_cons]
      have h0 : (0 * 10 + (c.toNat - 48)) = c.toNat - 48 := by omega
      rw [h0, ih]
    rw [List.foldl_cons, ih, hrhs, List.length_cons]
    ring

theorem digitsValNat_cons (c : Char) (cs : List Char) :
    digitsValNat (c :: cs) = (c.toNat - 48) * 10 ^ cs.length + digitsValNat cs := by
  rw [digitsValNat, List.foldl_cons]
  have h0 : (0 * 10 + (c.toNat - 48)) = c.toNat - 48 := by omega
  rw [h0, digitsVal_foldl_acc]

theorem digitsValNat_append_singleton (cs : List Char) (c : Char) :
    digitsValNat (cs ++ [c]) = digitsValNat cs * 10 + (c.toNat - 48) := by
  rw [digitsValNat, List.foldl_append]
  rfl

theorem digitsValNat_natToDigits (v : Nat) :
    digitsValNat (natToDigits v) = v := by
  induction v using Nat.strong_induction_on with
  | _ v ih =>
    unfold natToDigits
    split
    · rename_i h
      rw [digitsValNat, List.foldl_cons, toNat_digitChar v h]
      simp
    · rename_i h
      rw [digitsValNat_append_singleton,
        ih (v / 10) (Nat.div_lt_self (by omega) (by omega)),
        toNat_digitChar (v % 10) (Nat.mod_lt _ (by omega))]
      omega

theorem digitsValNat_lt (cs : List Char) (h : cs.all wid_is_digit = true) :
    digitsValNat cs < 10 ^ cs.length := by
  induction cs with
  | nil => simp [digitsValNat]
  | cons c cs ih =>
    rw [digitsValNat_cons]
    simp only [List.all_cons, Bool.and_eq_true] at h
    have hc : c.toNat - 48 ≤ 9 := by
      have := h.1
      simp only [wid_is_digit, Bool.and_eq_true, decide_eq_true_eq] at this
      omega
    have ht := ih h.2
    have hp : (0:Nat) < 10 ^ cs.length := Nat.pos_pow_of_pos _ (by omega)
    calc (c.toNat - 48) * 10 ^ cs.length + digitsValNat cs
        < (c.toNat - 48) * 10 ^ cs.length + 10 ^ cs.length := by omega
      _ = (c.toNat - 48 + 1) * 10 ^ cs.length := by ring
      _ ≤ 10 * 10 ^ cs.length := Nat.mul_le_mul_right _ (by omega)
      _ = 10 ^ (cs.length + 1) := by rw [pow_succ]; ring
      _ = 10 ^ (c :: cs).length := by simp

theorem wid_parse_digits_go_eq (cs : List Char) (h : cs.all wid_is_digit = true) :
    ∀ v : Int, wid_parse_digits_go v cs =
      v * 10 ^ cs.length + (digitsValNat cs : Int) := by
  induction cs with
  | nil => intro v; simp [wid_parse_digits_go, digitsValNat]
  | cons c cs ih =>
    intro v
    simp only [List.all_cons, Bool.and_eq_true] at h
    have hc : 48 ≤ c.toNat := by
      have hd := h.1
      simp only [wid_is_digit, Bool.and_eq_true, decide_eq_true_eq] at hd
      omega
    rw [wid_parse_digits_go, if_pos h.1, ih h.2, digitsValNat_cons, List.length_cons]
    push_cast [Nat.cast_sub hc]
    ring

theorem wid_parse_digits_i64_eq (cs : List Char)
    (h : cs.all wid_is_digit = true) :
    wid_parse_digits_i64 cs = (digitsValNat cs : Int) := by
  rw [wid_parse_digits_i64, wid_parse_digits_go_eq cs h]
  simp

theorem wid_parse_digits_i64_nonneg (cs : List Char)
    (h : cs.all wid_is_digit = true) : 0 ≤ wid_parse_digits_i64 cs := by
  rw [wid_parse_digits_i64_eq cs h]
  exact Int.ofNat_nonneg _

theorem length_padNum (v w : Nat) (hv : v < 10 ^ w) (hw : 1 ≤ w) :
    (padNum v w).length = w := by
  rw [padNum, List.length_append, List.length_replicate]
  have := length_natToDigits_le w v hv hw
  omega

theorem padNum_all_digits (v w : Nat) :
    (padNum v w).all wid_is_digit = true := by
  rw [padNum, List.all_append, Bool.and_eq_true]
  refine And.intro ?_ (natToDigits_all_digits v)
  rw [List.all_eq_true]
  intro c hc
  rw [List.eq_of_mem_replicate hc]
  decide

theorem digitsValNat_replicate_zero_append (k : Nat) (cs : List Char) :
    digitsValNat (List.replicate k '0' ++ cs) = digitsValNat cs := by
  rw [digitsValNat, List.foldl_append]
  have : List.foldl (fun a c => a * 10 + (c.toNat - 48)) 0 (List.replicate k '0') = 0 := by
    induction k with
    | zero => rfl
    | succ n ih => simpa [List.replicate_succ] using ih
  rw [this]
  rfl

theorem digitsValNat_padNum (v w : Nat) : digitsValNat (padNum v w) = v := by
  rw [padNum, digitsValNat_replicate_zero_append, digitsValNat_natToDigits]

theorem digitsValNat_inj (a : List Char) :
    ∀ b : List Char, a.length = b.length → a.all wid_is_digit = true →
      b.all wid_is_digit = true → digitsValNat a = digitsValNat b → a = b := by
  induction a with
  | nil =>
    intro b hl _ _ _
    exact (List.eq_nil_of_length_eq_zero hl.symm).symm
  | cons x xs ih =>
    intro b hl ha hb hv
    match b with
    | [] => simp at hl
    | y :: ys =>
      simp only [List.length_cons, Nat.succ.injEq] at hl
      simp only [List.all_cons, Bool.and_eq_true] at ha hb
      rw [digitsValNat_cons, digitsValNat_cons, hl] at hv
      have hxs := digitsValNat_lt xs ha.2
      have hys := digitsValNat_lt ys hb.2
      rw [hl] at hxs
      have hpos : (0:Nat) < 10 ^ ys.length := Nat.pos_pow_of_pos _ (by omega)
      have hdiv : ∀ d r : Nat, r < 10 ^ ys.length →
          (d * 10 ^ ys.length + r) / 10 ^ ys.length = d := by
        intro d r hr
        rw [mul_comm, Nat.mul_add_div hpos, Nat.div_eq_of_lt hr]
        omega
      have hxy : x.toNat - 48 = y.toNat - 48 := by
        have h1 := hdiv (x.toNat - 48) (digitsValNat xs) hxs
        have h2 := hdiv (y.toNat - 48) (digitsValNat ys) hys
        rw [← h1, hv, h2]
      have hx48 : 48 ≤ x.toNat := by
        have := ha.1
        simp only [wid_is_digit, Bool.and_eq_true, decide_eq_true_eq] at this
        omega
      have hy48 : 48 ≤ y.toNat := by
        have := hb.1
        simp only [wid_is_digit, Bool.and_eq_true, decide_eq_true_eq] at this
        omega
      have hxyn : x.toNat = y.toNat := by omega
      have hx : x = y := by
        have := congrArg Char.ofNat hxyn
        rwa [Char.ofNat_toNat, Char.ofNat_toNat] at this
      subst hx
      have hvs : digitsValNat xs = digitsValNat ys := by omega
      rw [ih ys hl ha.2 hb.2 hvs]

/-- The key digit identity: re-rendering the parsed value of a digit
string at its own width reproduces the string. -/
theorem padNum_digitsValNat (cs : List Char) (h : cs.all wid_is_digit = true)
    (hne : cs ≠ []) : padNum (digitsValNat cs) cs.length = cs := by
  have hlen : 1 ≤ cs.length := by
    cases cs with
    | nil => exact absurd rfl hne
    | cons c cs => simp
  have hv := digitsValNat_lt cs h
  exact digitsValNat_inj _ cs (length_padNum _ _ hv hlen)
    (padNum_all_digits _ _) h
    (digitsValNat_padNum _ _)

theorem padNumInt_ofNat (v : Nat) (w : Nat) :
    padNumInt (v : Int) w = padNum v w := by
  rw [padNumInt, if_neg (by omega)]
  simp

/-- `padNum_digitsValNat` lifted through `wid_parse_digits_i64`. -/
theorem padNumInt_parse_digits (cs : List Char)
    (h : cs.all wid_is_digit = true) (hne : cs ≠ []) :
    padNumInt (wid_parse_digits_i64 cs) cs.length = cs := by
  rw [wid_parse_digits_i64_eq cs h, padNumInt_ofNat, padNum_digitsValNat cs h hne]

/-! ### Lemmas: positional string access -/

theorem getD_drop (s : List Char) (a b : Nat) (d : Char) :
    (s.drop a).getD b d = s.getD (a + b) d := by
  by_cases h : a + b < s.length
  · have h2 : b < (s.drop a).length := by
      rw [List.length_drop]; omega
    rw [List.getD_eq_getElem _ _ h2, List.getD_eq_getElem _ _ h, List.getElem_drop]
  · have h2 : (s.drop a).length ≤ b := by
      rw [List.length_drop]; omega
    rw [List.getD_eq_default _ _ h2, List.getD_eq_default _ _ (by omega)]

theorem eq_take_cons_drop (s : List Char) (i : Nat) (d : Char)
    (h : i < s.length) :
    s = s.take i ++ s.getD i d :: s.drop (i + 1) := by
  conv_lhs => rw [← List.take_append_drop i s]
  rw [List.drop_eq_getElem_cons h, List.getD_eq_getElem _ _ h]

theorem length_drop_take (s : List Char) (a n : Nat) (h : a + n ≤ s.length) :
    ((s.drop a).take n).length = n := by
  rw [List.length_take, List.length_drop]
  omega

/-! ### Lemmas: characterizing the timestamp parser -/

/-- The field values `wid_parse_timestamp` extracts (meaningful once its
checks pass). -/
def ts_fields_of (s : List Char) (unit : TimeUnit) : TsFields :=
  ⟨wid_parse_digits_i64 (s.take 4),
   wid_parse_digits_i64 ((s.drop 4).take 2),
   wid_parse_digits_i64 ((s.drop 6).take 2),
   wid_parse_digits_i64 ((s.drop 9).take 2),
   wid_parse_digits_i64 ((s.drop 11).take 2),
   wid_parse_digits_i64 ((s.drop 13).take 2),
   match unit with
   | .ms => wid_parse_digits_i64 ((s.drop 15).take 3)
   | .sec => 0⟩

/-- The checks `wid_parse_timestamp` performs (the millisecond range
check is subsumed by the digit check, since three digits are < 1000). -/
def ts_checks (s : List Char) (unit : TimeUnit) : Prop :=
  s.getD 8 nulChar = 'T' ∧
  (s.take 8).all wid_is_digit = true ∧
  ((s.drop 9).take 6).all wid_is_digit = true ∧
  wid_valid_ymdhms (ts_fields_of s unit).year (ts_fields_of s unit).month
    (ts_fields_of s unit).day (ts_fields_of s unit).hour
    (ts_fields_of s unit).minute (ts_fields_of s unit).second = true ∧
  (match unit with
   | .ms => ((s.drop 15).take 3).all wid_is_digit = true
   | .sec => True) ∧
  s.getD (wid_timestamp_len unit) nulChar = '.'

theorem wid_parse_timestamp_eq_some_iff (s : List Char) (unit : TimeUnit)
    (f : TsFields) :
    wid_parse_timestamp s unit = some f ↔
      ts_checks s unit ∧ f = ts_fields_of s unit := by
  cases unit with
  | sec =>
    simp only [wid_parse_timestamp, ts_checks, ts_fields_of, wid_timestamp_len]
    split_ifs with h1 h2 h3 h4 h5
    · simp only [reduceCtorEq, false_iff]; intro h; exact h1 h.1.1
    · simp only [Bool.not_eq_true'] at h2
      simp only [reduceCtorEq, false_iff]; intro h
      rw [h.1.2.1] at h2; exact Bool.noConfusion h2
    · simp only [Bool.not_eq_true'] at h3
      simp only [reduceCtorEq, false_iff]; intro h
      rw [h.1.2.2.1] at h3; exact Bool.noConfusion h3
    · simp only [Bool.not_eq_true'] at h4
      simp only [reduceCtorEq, false_iff]; intro h
      rw [h.1.2.2.2.1] at h4; exact Bool.noConfusion h4
    · simp only [reduceCtorEq, false_iff]; intro h; exact h5 h.1.2.2.2.2.2
    · simp only [Bool.not_eq_true', Bool.not_eq_false] at h2 h3 h4
      simp only [Option.some.injEq]
      constructor
      · intro h
        refine ⟨⟨by simpa using h1, h2, h3, h4, trivial, by simpa using h5⟩, h.symm⟩
      · intro h; exact h.2.symm
  | ms =>
    simp only [wid_parse_timestamp, ts_checks, ts_fields_of, wid_timestamp_len]
    split_ifs with h1 h2 h3 h4 h5 h6 h7
    · simp only [reduceCtorEq, false_iff]; intro h; exact h1 h.1.1
    · simp only [Bool.not_eq_true'] at h2
      simp only [reduceCtorEq, false_iff]; intro h
      rw [h.1.2.1] at h2; exact Bool.noConfusion h2
    · simp only [Bool.not_eq_true'] at h3
      simp only [reduceCtorEq, false_iff]; intro h
      rw [h.1.2.2.1] at h3; exact Bool.noConfusion h3
    · simp only [Bool.not_eq_true'] at h4
      simp only [reduceCtorEq, false_iff]; intro h
      rw [h.1.2.2.2.1] at h4; exact Bool.noConfusion h4
    · simp only [Bool.not_eq_true'] at h5
      simp only [reduceCtorEq, false_iff]; intro h
      rw [h.1.2.2.2.2.1] at h5; exact Bool.noConfusion h5
    · -- ms digits pass but the range check fails: impossible for digits
      exfalso
      simp only [Bool.not_eq_true', Bool.not_eq_false] at h5
      simp only [Bool.or_eq_true, decide_eq_true_eq] at h6
      rw [wid_parse_digits_i64_eq _ h5] at h6
      rcases h6 with h6 | h6
      · omega
      · have hlt := digitsValNat_lt _ h5
        have hlen : ((s.drop 15).take 3).length ≤ 3 := List.length_take_le _ _
        have hb : digitsValNat ((s.drop 15).take 3) < 10 ^ 3 :=
          lt_of_lt_of_le hlt (Nat.pow_le_pow_right (by omega) hlen)
        simp only [Nat.reducePow] at hb
        omega
    · simp only [reduceCtorEq, false_iff]; intro h; exact h7 h.1.2.2.2.2.2
    · simp only [Bool.not_eq_true', Bool.not_eq_false] at h2 h3 h4 h5
      simp only [Option.some.injEq]
      constructor
      · intro h
        refine ⟨⟨by simpa using h1, h2, h3, h4, h5, by simpa using h7⟩, h.symm⟩
      · intro h; exact h.2.symm

/-! ### Lemmas: characterizing the validators -/

theorem wid_valid_suffix_cons_iff (c : Char) (pad : List Char) (Z : Int) :
    wid_valid_suffix (c :: pad) Z = true ↔
      c = '-' ∧ 0 < Z ∧ (pad.length : Int) = Z ∧
        pad.all wid_is_lower_hex = true := by
  simp only [wid_valid_suffix]
  split_ifs with h1 h2 h3
  · simp only [Bool.false_eq_true, false_iff]; intro h; exact h1 h.1
  · simp only [Bool.false_eq_true, false_iff]; intro h; omega
  · simp only [Bool.false_eq_true, false_iff]; intro h; exact h3 h.2.2.1
  · push_neg at h1 h3
    constructor
    · intro h; exact ⟨h1, by omega, h3, h⟩
    · intro h; exact h.2.2.2

set_option maxHeartbeats 1000000 in
theorem wid_validate_ex_eq_true_iff (s : List Char) (W Z : Int)
    (unit : TimeUnit) :
    wid_validate_ex s W Z unit = true ↔
      0 < W ∧ 0 ≤ Z ∧ W ≤ 18 ∧ Z ≤ 64 ∧
      wid_timestamp_len unit + 1 + W.toNat + 1 ≤ s.length ∧
      wid_parse_timestamp s unit = some (ts_fields_of s unit) ∧
      s.getD (wid_timestamp_len unit + 1 + W.toNat) nulChar = 'Z' ∧
      ((s.drop (wid_timestamp_len unit + 1)).take W.toNat).all wid_is_digit = true ∧
      wid_valid_suffix (s.drop (wid_timestamp_len unit + 1 + W.toNat + 1)) Z = true := by
  constructor
  · intro h
    simp only [wid_validate_ex] at h
    split at h
    · simp at h
    rename_i hc1
    split at h
    · simp at h
    rename_i hc2
    split at h
    · simp at h
    rename_i hc3
    split at h
    · simp at h
    rename_i hc4
    split at h
    · simp at h
    rename_i hc5
    split at h
    · simp at h
    rename_i hc6
    simp only [Bool.or_eq_true, decide_eq_true_eq, not_or, not_lt, not_le] at hc1 hc2
    push_neg at hc3 hc5
    simp only [Bool.not_eq_true', Bool.not_eq_false] at hc6
    have hsome : wid_parse_timestamp s unit = some (ts_fields_of s unit) := by
      rcases hopt : wid_parse_timestamp s unit with _ | f
      · rw [hopt] at hc4; simp at hc4
      · have hf := (wid_parse_timestamp_eq_some_iff s unit f).mp hopt
        rw [hf.2]
    exact ⟨by omega, by omega, by omega, by omega, by omega, hsome, hc5, hc6, h⟩
  · rintro ⟨hW, hZ, hW18, hZ64, hlen, hsome, hZch, hdig, hsuf⟩
    simp only [wid_validate_ex]
    split
    · rename_i hc; simp only [Bool.or_eq_true, decide_eq_true_eq] at hc; omega
    split
    · rename_i hc; simp only [Bool.or_eq_true, decide_eq_true_eq] at hc; omega
    split
    · rename_i hc; omega
    split
    · rename_i hc; rw [hsome] at hc; simp at hc
    split
    · rename_i hc; exact absurd hZch hc
    split
    · rename_i hc; rw [hdig] at hc; simp at hc
    exact hsuf

set_option maxHeartbeats 1000000 in
theorem hlc_wid_validate_ex_eq_true_iff (s : List Char) (W Z : Int)
    (unit : TimeUnit) :
    hlc_wid_validate_ex s W Z unit = true ↔
      0 < W ∧ 0 ≤ Z ∧ W ≤ 18 ∧ Z ≤ 64 ∧
      wid_timestamp_len unit + 1 + W.toNat + 1 + 2 ≤ s.length ∧
      wid_parse_timestamp s unit = some (ts_fields_of s unit) ∧
      s.getD (wid_timestamp_len unit + 1 + W.toNat) nulChar = 'Z' ∧
      s.getD (wid_timestamp_len unit + 1 + W.toNat + 1) nulChar = '-' ∧
      ((s.drop (wid_timestamp_len unit + 1)).take W.toNat).all wid_is_digit = true ∧
      ((s.drop (wid_timestamp_len unit + 1 + W.toNat + 1 + 1)).takeWhile
        (fun c => c != '-')).all wid_is_node_char = true ∧
      0 < ((s.drop (wid_timestamp_len unit + 1 + W.toNat + 1 + 1)).takeWhile
        (fun c => c != '-')).length ∧
      wid_valid_suffix ((s.drop (wid_timestamp_len unit + 1 + W.toNat + 1 + 1)).dropWhile
        (fun c => c != '-')) Z = true := by
  constructor
  · intro h
    simp only [hlc_wid_validate_ex] at h
    split at h
    · simp at h
    rename_i hc1
    split at h
    · simp at h
    rename_i hc2
    split at h
    · simp at h
    rename_i hc3
    split at h
    · simp at h
    rename_i hc4
    split at h
    · simp at h
    rename_i hc5
    split at h
    · simp at h
    rename_i hc6
    split at h
    · simp at h
    rename_i hc7
    split at h
    · simp at h
    rename_i hc8
    split at h
    · simp at h
    rename_i hc9
    simp only [Bool.or_eq_true, decide_eq_true_eq, not_or, not_lt, not_le] at hc1 hc2
    push_neg at hc3 hc5 hc6
    simp only [Bool.not_eq_true', Bool.not_eq_false] at hc7 hc8
    have hsome : wid_parse_timestamp s unit = some (ts_fields_of s unit) := by
      rcases hopt : wid_parse_timestamp s unit with _ | f
      · rw [hopt] at hc4; simp at hc4
      · have hf := (wid_parse_timestamp_eq_some_iff s unit f).mp hopt
        rw [hf.2]
    refine ⟨by omega, by omega, by omega, by omega, by omega, hsome, hc5, hc6,
      hc7, hc8, by omega, ?_⟩
    split at h
    · rename_i hc10
      rw [List.isEmpty_iff] at hc10
      rw [hc10]
      rfl
    · exact h
  · rintro ⟨hW, hZ, hW18, hZ64, hlen, hsome, hZch, hDch, hdig, hnode, hnlen, hsuf⟩
    simp only [hlc_wid_validate_ex]
    split
    · rename_i hc; simp only [Bool.or_eq_true, decide_eq_true_eq] at hc; omega
    split
    · rename_i hc; simp only [Bool.or_eq_true, decide_eq_true_eq] at hc; omega
    split
    · rename_i hc; omega
    split
    · rename_i hc; rw [hsome] at hc; simp at hc
    split
    · rename_i hc; exact absurd hZch hc
    split
    · rename_i hc; exact absurd hDch hc
    split
    · rename_i hc; rw [hdig] at hc; simp at hc
    split
    · rename_i hc; rw [hnode] at hc; simp at hc
    split
    · rename_i hc; omega
    split
    · rfl
    · exact hsuf

/-! ### Lemmas: parse succeeds iff validate accepts (plus the node-length bound) -/

theorem wid_parse_ex_isSome_eq (s : List Char) (W Z : Int) (unit : TimeUnit) :
    (wid_parse_ex s W Z unit).isSome = wid_validate_ex s W Z unit := by
  by_cases hv : wid_validate_ex s W Z unit = true
  · rw [hv]
    obtain ⟨hW, hZ, hW18, hZ64, hlen, hsome, hZch, hdig, hsuf⟩ :=
      (wid_validate_ex_eq_true_iff s W Z unit).mp hv
    have hseq := wid_parse_digits_i64_nonneg _ hdig
    simp only [wid_parse_ex, hv, Bool.not_true, Bool.false_eq_true, if_false,
      hsome]
    rw [if_neg (by omega)]
    split
    · simp
    · rename_i c pad hdrop
      rw [hdrop, wid_valid_suffix_cons_iff] at hsuf
      have hpl : ¬(pad.length > 64) := by
        have hplz := hsuf.2.2.1
        omega
      rw [if_neg hpl]
      simp
  · have hvf : wid_validate_ex s W Z unit = false := by
      revert hv; cases wid_validate_ex s W Z unit <;> simp
    rw [hvf]
    simp [wid_parse_ex, hvf]

theorem hlc_wid_parse_ex_isSome_eq (s : List Char) (W Z : Int)
    (unit : TimeUnit) :
    (hlc_wid_parse_ex s W Z unit).isSome =
      (hlc_wid_validate_ex s W Z unit &&
        decide (((s.drop (wid_timestamp_len unit + 1 + W.toNat + 1 + 1)).takeWhile
          (fun c => c != '-')).length < 64)) := by
  by_cases hv : hlc_wid_validate_ex s W Z unit = true
  · rw [hv, Bool.true_and]
    obtain ⟨hW, hZ, hW18, hZ64, hlen, hsome, hZch, hDch, hdig, hnode, hnlen, hsuf⟩ :=
      (hlc_wid_validate_ex_eq_true_iff s W Z unit).mp hv
    have hlcv := wid_parse_digits_i64_nonneg _ hdig
    simp only [hlc_wid_parse_ex, hv, Bool.not_true, Bool.false_eq_true, if_false,
      hsome]
    rw [if_neg (by omega)]
    set node0 := (s.drop (wid_timestamp_len unit + 1 + W.toNat + 1 + 1)).takeWhile
      (fun c => c != '-') with hnodedef
    by_cases hlen64 : node0.length < 64
    · have hcond : ¬((node0.length == 0 || decide (node0.length ≥ 64)) = true) := by
        simp only [Bool.or_eq_true, beq_iff_eq, decide_eq_true_eq]
        push_neg
        exact ⟨by omega, by omega⟩
      rw [if_neg (by simpa using hcond)]
      split
      · simp [hlen64]
      · rename_i c pad hdash
        rw [hdash, wid_valid_suffix_cons_iff] at hsuf
        have hpl : ¬(pad.length > 64) := by
          have hplz := hsuf.2.2.1
          omega
        rw [if_neg hpl]
        simp [hlen64]
    · have hcond : (node0.length == 0 || decide (node0.length ≥ 64)) = true := by
        simp only [Bool.or_eq_true, beq_iff_eq, decide_eq_true_eq]
        omega
      rw [if_pos (by simpa using hcond)]
      simp only [Option.isSome_none, Bool.false_eq]
      simp [hlen64]
  · have hvf : hlc_wid_validate_ex s W Z unit = false := by
      revert hv; cases hlc_wid_validate_ex s W Z unit <;> simp
    rw [hvf, Bool.false_and]
    simp [hlc_wid_parse_ex, hvf]

/-! ### Lemmas: round trip (re-rendering a parsed string reproduces it) -/

theorem padNumInt_parse_digits_width (cs : List Char) (w : Nat)
    (h : cs.all wid_is_digit = true) (hw : cs.length = w) (hne : 0 < w) :
    padNumInt (wid_parse_digits_i64 cs) w = cs := by
  subst hw
  exact padNumInt_parse_digits cs h (List.ne_nil_of_length_pos hne)

theorem drop_succ_of_getD (s : List Char) (i : Nat) (c : Char)
    (hlt : i < s.length) (hc : s.getD i nulChar = c) :
    s.drop i = c :: s.drop (i + 1) := by
  rw [List.drop_eq_getElem_cons hlt]
  congr 1
  rw [← List.getD_eq_getElem s nulChar hlt]
  exact hc

set_option maxHeartbeats 1000000 in
theorem render_timestamp_of_checks (s : List Char) (unit : TimeUnit)
    (h : ts_checks s unit) (hlen : wid_timestamp_len unit + 1 ≤ s.length) :
    render_timestamp (ts_fields_of s unit) unit = s.take (wid_timestamp_len unit) := by
  obtain ⟨hT, h8, h6, _hymd, hms, _hdot⟩ := h
  have e8 : s.take 8 = s.take 4 ++ ((s.drop 4).take 2 ++ (s.drop 6).take 2) := by
    have e1 : s.take 8 = s.take 4 ++ (s.drop 4).take 4 := by
      rw [show (8 : Nat) = 4 + 4 from rfl, List.take_add]
    have e2 : (s.drop 4).take 4 = (s.drop 4).take 2 ++ (s.drop 6).take 2 := by
      rw [show (4 : Nat) = 2 + 2 from rfl, List.take_add, List.drop_drop]
    rw [e1, e2]
  have e6 : (s.drop 9).take 6 =
      (s.drop 9).take 2 ++ ((s.drop 11).take 2 ++ (s.drop 13).take 2) := by
    have e1 : (s.drop 9).take 6 = (s.drop 9).take 2 ++ (s.drop 11).take 4 := by
      rw [show (6 : Nat) = 2 + 4 from rfl, List.take_add, List.drop_drop]
    have e2 : (s.drop 11).take 4 = (s.drop 11).take 2 ++ (s.drop 13).take 2 := by
      rw [show (4 : Nat) = 2 + 2 from rfl, List.take_add, List.drop_drop]
    rw [e1, e2]
  rw [e8, List.all_append, List.all_append, Bool.and_eq_true, Bool.and_eq_true] at h8
  rw [e6, List.all_append, List.all_append, Bool.and_eq_true, Bool.and_eq_true] at h6
  cases unit with
  | sec =>
    simp only [wid_timestamp_len] at hlen ⊢
    have r4 := padNumInt_parse_digits_width (s.take 4) 4 h8.1
      (by rw [List.length_take]; omega) (by omega)
    have r42 := padNumInt_parse_digits_width ((s.drop 4).take 2) 2 h8.2.1
      (length_drop_take s 4 2 (by omega)) (by omega)
    have r62 := padNumInt_parse_digits_width ((s.drop 6).take 2) 2 h8.2.2
      (length_drop_take s 6 2 (by omega)) (by omega)
    have r92 := padNumInt_parse_digits_width ((s.drop 9).take 2) 2 h6.1
      (length_drop_take s 9 2 (by omega)) (by omega)
    have r112 := padNumInt_parse_digits_width ((s.drop 11).take 2) 2 h6.2.1
      (length_drop_take s 11 2 (by omega)) (by omega)
    have r132 := padNumInt_parse_digits_width ((s.drop 13).take 2) 2 h6.2.2
      (length_drop_take s 13 2 (by omega)) (by omega)
    have eA : s.take 15 = s.take 8 ++ (s.drop 8).take 7 := by
      rw [show (15 : Nat) = 8 + 7 from rfl, List.take_add]
    have eT : s.drop 8 = 'T' :: s.drop 9 :=
      drop_succ_of_getD s 8 'T' (by omega) hT
    have eTt : (s.drop 8).take 7 = 'T' :: (s.drop 9).take 6 := by
      rw [eT, show (7 : Nat) = 6 + 1 from rfl, List.take_succ_cons]
    simp only [render_timestamp, ts_fields_of]
    rw [r4, r42, r62, r92, r112, r132, eA, e8, eTt, e6]
    simp [List.append_assoc]
  | ms =>
    simp only [wid_timestamp_len] at hlen ⊢
    have hms3 : ((s.drop 15).take 3).all wid_is_digit = true := hms
    have r4 := padNumInt_parse_digits_width (s.take 4) 4 h8.1
      (by rw [List.length_take]; omega) (by omega)
    have r42 := padNumInt_parse_digits_width ((s.drop 4).take 2) 2 h8.2.1
      (length_drop_take s 4 2 (by omega)) (by omega)
    have r62 := padNumInt_parse_digits_width ((s.drop 6).take 2) 2 h8.2.2
      (length_drop_take s 6 2 (by omega)) (by omega)
    have r92 := padNumInt_parse_digits_width ((s.drop 9).take 2) 2 h6.1
      (length_drop_take s 9 2 (by omega)) (by omega)
    have r112 := padNumInt_parse_digits_width ((s.drop 11).take 2) 2 h6.2.1
      (length_drop_take s 11 2 (by omega)) (by omega)
    have r132 := padNumInt_parse_digits_width ((s.drop 13).take 2) 2 h6.2.2
      (length_drop_take s 13 2 (by omega)) (by omega)
    have r153 := padNumInt_parse_digits_width ((s.drop 15).take 3) 3 hms3
      (length_drop_take s 15 3 (by omega)) (by omega)
    have eA : s.take 18 = s.take 8 ++ (s.drop 8).take 10 := by
      rw [show (18 : Nat) = 8 + 10 from rfl, List.take_add]
    have eT : s.drop 8 = 'T' :: s.drop 9 :=
      drop_succ_of_getD s 8 'T' (by omega) hT
    have eTt : (s.drop 8).take 10 = 'T' :: (s.drop 9).take 9 := by
      rw [eT, show (10 : Nat) = 9 + 1 from rfl, List.take_succ_cons]
    have e9 : (s.drop 9).take 9 = (s.drop 9).take 6 ++ (s.drop 15).take 3 := by
      rw [show (9 : Nat) = 6 + 3 from rfl, List.take_add, List.drop_drop]
    simp only [render_timestamp, ts_fields_of]
    rw [r4, r42, r62, r92, r112, r132, r153, eA, e8, eTt, e9, e6]
    simp [List.append_assoc]

set_option maxHeartbeats 1000000 in
/-- A validated WID parses, and re-rendering the parsed fields with the
same width reproduces the input string. -/
theorem wid_validate_round_trip (s : List Char) (W Z : Int) (unit : TimeUnit)
    (hv : wid_validate_ex s W Z unit = true) :
    ∃ p, wid_parse_ex s W Z unit = some p ∧ render_wid p W unit = s := by
  obtain ⟨hW, hZ, hW18, hZ64, hlen, hsome, hZch, hdig, hsuf⟩ :=
    (wid_validate_ex_eq_true_iff s W Z unit).mp hv
  have hseq := wid_parse_digits_i64_nonneg _ hdig
  have hchecks := ((wid_parse_timestamp_eq_some_iff s unit _).mp hsome).1
  have hdot := hchecks.2.2.2.2.2
  refine ⟨⟨s, (ts_fields_of s unit).year, (ts_fields_of s unit).month,
    (ts_fields_of s unit).day, (ts_fields_of s unit).hour,
    (ts_fields_of s unit).minute, (ts_fields_of s unit).second,
    (ts_fields_of s unit).millisecond,
    wid_parse_digits_i64 ((s.drop (wid_timestamp_len unit + 1)).take W.toNat),
    !(s.drop (wid_timestamp_len unit + 1 + W.toNat + 1)).isEmpty,
    (s.drop (wid_timestamp_len unit + 1 + W.toNat + 1)).drop 1⟩, ?_, ?_⟩
  · -- the parser produces exactly this record
    simp only [wid_parse_ex, hv, Bool.not_true, Bool.false_eq_true, if_false,
      hsome]
    rw [if_neg (by omega)]
    split
    · rename_i hdrop
      simp [hdrop]
    · rename_i c pad hdrop
      have hsuf2 := hsuf
      rw [hdrop, wid_valid_suffix_cons_iff] at hsuf2
      have hpl : ¬(pad.length > 64) := by
        have hplz := hsuf2.2.2.1
        omega
      rw [if_neg hpl]
      simp [hdrop]
  · -- re-rendering reproduces the string
    have hts := render_timestamp_of_checks s unit hchecks (by omega)
    have heta : (⟨(ts_fields_of s unit).year, (ts_fields_of s unit).month,
        (ts_fields_of s unit).day, (ts_fields_of s unit).hour,
        (ts_fields_of s unit).minute, (ts_fields_of s unit).second,
        (ts_fields_of s unit).millisecond⟩ : TsFields) = ts_fields_of s unit := rfl
    have rseq := padNumInt_parse_digits_width
      ((s.drop (wid_timestamp_len unit + 1)).take W.toNat) W.toNat hdig
      (length_drop_take s _ _ (by omega)) (by omega)
    have e1 := eq_take_cons_drop s (wid_timestamp_len unit) nulChar (by omega)
    rw [hdot] at e1
    have e2 : s.drop (wid_timestamp_len unit + 1) =
        (s.drop (wid_timestamp_len unit + 1)).take W.toNat ++
          (s.drop (wid_timestamp_len unit + 1)).drop W.toNat :=
      (List.take_append_drop _ _).symm
    have e3 : (s.drop (wid_timestamp_len unit + 1)).drop W.toNat =
        s.drop (wid_timestamp_len unit + 1 + W.toNat) := by
      rw [List.drop_drop]
    have e4 : s.drop (wid_timestamp_len unit + 1 + W.toNat) =
        'Z' :: s.drop (wid_timestamp_len unit + 1 + W.toNat + 1) :=
      drop_succ_of_getD s _ 'Z' (by omega) hZch
    rw [e2, e3, e4] at e1
    simp only [render_wid, heta]
    rw [hts, rseq]
    rcases hsfx : s.drop (wid_timestamp_len unit + 1 + W.toNat + 1) with _ | ⟨c, pad⟩
    · rw [hsfx] at e1
      simpa using e1.symm
    · have hsuf2 := hsuf
      rw [hsfx, wid_valid_suffix_cons_iff] at hsuf2
      rw [hsfx] at e1
      rw [hsuf2.1] at e1
      simpa using e1.symm

set_option maxHeartbeats 1000000 in
/-- A validated HLC-WID whose node segment fits the 64-byte buffer
parses, and re-rendering reproduces the input string. -/
theorem hlc_validate_round_trip (s : List Char) (W Z : Int) (unit : TimeUnit)
    (hv : hlc_wid_validate_ex s W Z unit = true)
    (hn64 : ((s.drop (wid_timestamp_len unit + 1 + W.toNat + 1 + 1)).takeWhile
      (fun c => c != '-')).length < 64) :
    ∃ p, hlc_wid_parse_ex s W Z unit = some p ∧ render_hlc p W unit = s := by
  obtain ⟨hW, hZ, hW18, hZ64, hlen, hsome, hZch, hDch, hdig, hnode, hnlen, hsuf⟩ :=
    (hlc_wid_validate_ex_eq_true_iff s W Z unit).mp hv
  have hlcv := wid_parse_digits_i64_nonneg _ hdig
  have hchecks := ((wid_parse_timestamp_eq_some_iff s unit _).mp hsome).1
  have hdot := hchecks.2.2.2.2.2
  refine ⟨⟨s, (ts_fields_of s unit).year, (ts_fields_of s unit).month,
    (ts_fields_of s unit).day, (ts_fields_of s unit).hour,
    (ts_fields_of s unit).minute, (ts_fields_of s unit).second,
    (ts_fields_of s unit).millisecond,
    wid_parse_digits_i64 ((s.drop (wid_timestamp_len unit + 1)).take W.toNat),
    (s.drop (wid_timestamp_len unit + 1 + W.toNat + 1 + 1)).takeWhile
      (fun c => c != '-'),
    !((s.drop (wid_timestamp_len unit + 1 + W.toNat + 1 + 1)).dropWhile
      (fun c => c != '-')).isEmpty,
    ((s.drop (wid_timestamp_len unit + 1 + W.toNat + 1 + 1)).dropWhile
      (fun c => c != '-')).drop 1⟩, ?_, ?_⟩
  · simp only [hlc_wid_parse_ex, hv, Bool.not_true, Bool.false_eq_true, if_false,
      hsome]
    rw [if_neg (by omega)]
    have hcond : ¬((((s.drop (wid_timestamp_len unit + 1 + W.toNat + 1 + 1)).takeWhile
        (fun c => c != '-')).length == 0 ||
        decide (((s.drop (wid_timestamp_len unit + 1 + W.toNat + 1 + 1)).takeWhile
          (fun c => c != '-')).length ≥ 64)) = true) := by
      simp only [Bool.or_eq_true, beq_iff_eq, decide_eq_true_eq]
      push_neg
      exact ⟨by omega, by omega⟩
    rw [if_neg (by simpa using hcond)]
    split
    · rename_i hdash
      simp [hdash]
    · rename_i c pad hdash
      have hsuf2 := hsuf
      rw [hdash, wid_valid_suffix_cons_iff] at hsuf2
      have hpl : ¬(pad.length > 64) := by
        have hplz := hsuf2.2.2.1
        omega
      rw [if_neg hpl]
      simp [hdash]
  · have hts := render_timestamp_of_checks s unit hchecks (by omega)
    have heta : (⟨(ts_fields_of s unit).year, (ts_fields_of s unit).month,
        (ts_fields_of s unit).day, (ts_fields_of s unit).hour,
        (ts_fields_of s unit).minute, (ts_fields_of s unit).second,
        (ts_fields_of s unit).millisecond⟩ : TsFields) = ts_fields_of s unit := rfl
    have rseq := padNumInt_parse_digits_width
      ((s.drop (wid_timestamp_len unit + 1)).take W.toNat) W.toNat hdig
      (length_drop_take s _ _ (by omega)) (by omega)
    have e1 := eq_take_cons_drop s (wid_timestamp_len unit) nulChar (by omega)
    rw [hdot] at e1
    have e2 : s.drop (wid_timestamp_len unit + 1) =
        (s.drop (wid_timestamp_len unit + 1)).take W.toNat ++
          (s.drop (wid_timestamp_len unit + 1)).drop W.toNat :=
      (List.take_append_drop _ _).symm
    have e3 : (s.drop (wid_timestamp_len unit + 1)).drop W.toNat =
        s.drop (wid_timestamp_len unit + 1 + W.toNat) := by
      rw [List.drop_drop]
    have e4 : s.drop (wid_timestamp_len unit + 1 + W.toNat) =
        'Z' :: s.drop (wid_timestamp_len unit + 1 + W.toNat + 1) :=
      drop_succ_of_getD s _ 'Z' (by omega) hZch
    have e5 : s.drop (wid_timestamp_len unit + 1 + W.toNat + 1) =
        '-' :: s.drop (wid_timestamp_len unit + 1 + W.toNat + 1 + 1) :=
      drop_succ_of_getD s _ '-' (by omega) hDch
    have e6 : s.drop (wid_timestamp_len unit + 1 + W.toNat + 1 + 1) =
        ((s.drop (wid_timestamp_len unit + 1 + W.toNat + 1 + 1)).takeWhile
          (fun c => c != '-')) ++
        ((s.drop (wid_timestamp_len unit + 1 + W.toNat + 1 + 1)).dropWhile
          (fun c => c != '-')) :=
      (List.takeWhile_append_dropWhile _ _).symm
    rw [e2, e3, e4, e5] at e1
    simp only [render_hlc, heta]
    rw [hts, rseq]
    rcases hsfx : (s.drop (wid_timestamp_len unit + 1 + W.toNat + 1 + 1)).dropWhile
        (fun c => c != '-') with _ | ⟨c, pad⟩
    · rw [hsfx] at e6
      rw [List.append_nil] at e6
      simp only [List.isEmpty_nil, Bool.not_true, Bool.false_eq_true, if_false,
        List.drop_nil, List.append_nil]
      rw [← e6]
      exact e1.symm
    · have hsuf2 := hsuf
      rw [hsfx, wid_valid_suffix_cons_iff] at hsuf2
      rw [hsfx, hsuf2.1] at e6
      rw [e6] at e1
      rw [hsuf2.1]
      simpa [List.append_assoc] using e1.symm

/-! ### Lemmas: the emitted strings validate -/

theorem length_padNumInt (v : Int) (w : Nat) (h0 : 0 ≤ v) (hv : v < 10 ^ w)
    (hw : 1 ≤ w) : (padNumInt v w).length = w := by
  rw [padNumInt, if_neg (by omega)]
  apply length_padNum _ _ ?_ hw
  have hcast : ((10 ^ w : Nat) : Int) = (10 : Int) ^ w := by push_cast; ring
  omega

theorem padNumInt_all_digits (v : Int) (w : Nat) (h0 : 0 ≤ v) :
    (padNumInt v w).all wid_is_digit = true := by
  rw [padNumInt, if_neg (by omega)]
  exact padNum_all_digits _ _

theorem parse_padNumInt (v : Int) (w : Nat) (h0 : 0 ≤ v) :
    wid_parse_digits_i64 (padNumInt v w) = v := by
  rw [padNumInt, if_neg (by omega),
    wid_parse_digits_i64_eq _ (padNum_all_digits _ _), digitsValNat_padNum]
  exact Int.toNat_of_nonneg h0

theorem take_append_of_ge (a b : List Char) (n : Nat) (h : a.length ≤ n) :
    (a ++ b).take n = a ++ b.take (n - a.length) := by
  rw [List.take_append_eq_append_take, List.take_of_length_le h]

theorem drop_chain_append (s : List Char) (m n k : Nat) (a b : List Char)
    (hmn : m + n = k) (h : s.drop m = a ++ b) (hlen : a.length = n) :
    s.drop k = b := by
  subst hmn
  rw [← List.drop_drop, h, List.drop_left' hlen]

theorem drop_chain_cons (s : List Char) (m k : Nat) (c : Char) (b : List Char)
    (hmk : m + 1 = k) (h : s.drop m = c :: b) : s.drop k = b := by
  subst hmk
  rw [← List.drop_drop, h, List.drop_one]
  rfl

theorem getD_of_drop_cons (s : List Char) (i : Nat) (c : Char)
    (rest : List Char) (h : s.drop i = c :: rest) :
    s.getD i nulChar = c := by
  have hg := getD_drop s i 0 nulChar
  rw [h] at hg
  simpa using hg.symm

theorem days_in_month_getD_le (i : Nat) : days_in_month.getD i 0 ≤ 31 := by
  rcases Nat.lt_or_ge i 12 with h | h
  · revert h
    revert i
    decide
  · rw [List.getD_eq_default _ _ (by simp [days_in_month]; omega)]
    omega

theorem days_in_month_getD_pos (i : Nat) (h : i < 12) :
    1 ≤ days_in_month.getD i 0 := by
  revert h
  revert i
  decide

theorem wid_valid_ymdhms_eq_true_iff (y mo d h mi se : Int) :
    wid_valid_ymdhms y mo d h mi se = true ↔
      1 ≤ mo ∧ mo ≤ 12 ∧ 0 ≤ h ∧ h ≤ 23 ∧ 0 ≤ mi ∧ mi ≤ 59 ∧
      0 ≤ se ∧ se ≤ 59 ∧ 1 ≤ d ∧
      d ≤ (if (mo = 2 && wid_is_leap_year y) = true then 29
           else days_in_month.getD (mo.toNat - 1) 0) := by
  constructor
  · intro hv
    simp only [wid_valid_ymdhms] at hv
    split at hv
    · simp at hv
    rename_i hc1
    split at hv
    · simp at hv
    rename_i hc2
    split at hv
    · simp at hv
    rename_i hc3
    split at hv
    · simp at hv
    rename_i hc4
    simp only [Bool.or_eq_true, decide_eq_true_eq, not_or, not_lt, not_le] at hc1 hc2 hc3 hc4
    simp only [Bool.and_eq_true, decide_eq_true_eq] at hv
    split at hv
    · rename_i hfeb
      refine ⟨by omega, by omega, by omega, by omega, by omega, by omega,
        by omega, by omega, by omega, ?_⟩
      rw [if_pos (show (decide (mo = 2) && wid_is_leap_year y) = true by
        simp only [Bool.and_eq_true, decide_eq_true_eq]; exact hfeb)]
      omega
    · rename_i hfeb
      refine ⟨by omega, by omega, by omega, by omega, by omega, by omega,
        by omega, by omega, by omega, ?_⟩
      rw [if_neg (show ¬((decide (mo = 2) && wid_is_leap_year y) = true) by
        simp only [Bool.and_eq_true, decide_eq_true_eq]; exact hfeb)]
      omega
  · rintro ⟨h1, h2, h3, h4, h5, h6, h7, h8, h9, h10⟩
    simp only [wid_valid_ymdhms]
    split
    · rename_i hc; simp only [Bool.or_eq_true, decide_eq_true_eq] at hc; omega
    split
    · rename_i hc; simp only [Bool.or_eq_true, decide_eq_true_eq] at hc; omega
    split
    · rename_i hc; simp only [Bool.or_eq_true, decide_eq_true_eq] at hc; omega
    split
    · rename_i hc; simp only [Bool.or_eq_true, decide_eq_true_eq] at hc; omega
    simp only [Bool.and_eq_true, decide_eq_true_eq]
    split
    · rename_i hfeb
      rw [if_pos (show (decide (mo = 2) && wid_is_leap_year y) = true by
        simp only [Bool.and_eq_true, decide_eq_true_eq]; exact hfeb)] at h10
      exact ⟨by omega, by omega⟩
    · rename_i hfeb
      rw [if_neg (show ¬((decide (mo = 2) && wid_is_leap_year y) = true) by
        simp only [Bool.and_eq_true, decide_eq_true_eq]; exact hfeb)] at h10
      exact ⟨by omega, by omega⟩

theorem take_eq_of_eq_append (s a b : List Char) (n : Nat) (h : s = a ++ b)
    (hlen : a.length = n) : s.take n = a := by
  subst h
  exact List.take_left' hlen

set_option maxHeartbeats 4000000 in
/-- A rendered timestamp followed by `'.' :: rest` passes the timestamp
checks, re-parses to the original fields, and has the expected layout. -/
theorem ts_render_facts (f : TsFields) (unit : TimeUnit) (rest : List Char)
    (hymd : wid_valid_ymdhms f.year f.month f.day f.hour f.minute f.second = true)
    (hy0 : 0 ≤ f.year) (hy4 : f.year ≤ 9999)
    (hms0 : 0 ≤ f.millisecond) (hms9 : f.millisecond ≤ 999) :
    ts_checks (render_timestamp f unit ++ '.' :: rest) unit ∧
    ts_fields_of (render_timestamp f unit ++ '.' :: rest) unit =
      ⟨f.year, f.month, f.day, f.hour, f.minute, f.second,
       match unit with | .ms => f.millisecond | .sec => 0⟩ ∧
    (render_timestamp f unit ++ '.' :: rest).length =
      wid_timestamp_len unit + 1 + rest.length ∧
    (render_timestamp f unit ++ '.' :: rest).drop (wid_timestamp_len unit + 1) = rest := by
  obtain ⟨hmo1, hmo12, hh0, hh23, hmi0, hmi59, hse0, hse59, hd1, hdle⟩ :=
    (wid_valid_ymdhms_eq_true_iff f.year f.month f.day f.hour f.minute f.second).mp hymd
  have hd31 : f.day ≤ 31 := by
    have htab := days_in_month_getD_le (f.month.toNat - 1)
    split at hdle
    · omega
    · omega
  have hp4 : (10 : Int) ^ (4 : Nat) = 10000 := by norm_num
  have hp2 : (10 : Int) ^ (2 : Nat) = 100 := by norm_num
  have hp3 : (10 : Int) ^ (3 : Nat) = 1000 := by norm_num
  have la4 : (padNumInt f.year 4).length = 4 :=
    length_padNumInt _ _ hy0 (by omega) (by omega)
  have lb2 : (padNumInt f.month 2).length = 2 :=
    length_padNumInt _ _ (by omega) (by omega) (by omega)
  have lc2 : (padNumInt f.day 2).length = 2 :=
    length_padNumInt _ _ (by omega) (by omega) (by omega)
  have ld2 : (padNumInt f.hour 2).length = 2 :=
    length_padNumInt _ _ (by omega) (by omega) (by omega)
  have le2 : (padNumInt f.minute 2).length = 2 :=
    length_padNumInt _ _ (by omega) (by omega) (by omega)
  have lf2 : (padNumInt f.second 2).length = 2 :=
    length_padNumInt _ _ (by omega) (by omega) (by omega)
  have da4 := padNumInt_all_digits f.year 4 hy0
  have db2 := padNumInt_all_digits f.month 2 (by omega)
  have dc2 := padNumInt_all_digits f.day 2 (by omega)
  have dd2 := padNumInt_all_digits f.hour 2 (by omega)
  have de2 := padNumInt_all_digits f.minute 2 (by omega)
  have df2 := padNumInt_all_digits f.second 2 (by omega)
  cases unit with
  | sec =>
    set s := render_timestamp f .sec ++ '.' :: rest with hs
    have hA : s = padNumInt f.year 4 ++ (padNumInt f.month 2 ++ (padNumInt f.day 2 ++
        ('T' :: (padNumInt f.hour 2 ++ (padNumInt f.minute 2 ++ (padNumInt f.second 2 ++
        ('.' :: rest))))))) := by
      rw [hs]
      simp only [render_timestamp, List.append_assoc, List.cons_append,
        List.nil_append, List.append_nil]
    have h0 : s.drop 0 = padNumInt f.year 4 ++ (padNumInt f.month 2 ++ (padNumInt f.day 2 ++
        ('T' :: (padNumInt f.hour 2 ++ (padNumInt f.minute 2 ++ (padNumInt f.second 2 ++
        ('.' :: rest))))))) := by
      rw [List.drop_zero]; exact hA
    have h4 := drop_chain_append s 0 4 4 _ _ (by norm_num) h0 la4
    have h6 := drop_chain_append s 4 2 6 _ _ (by norm_num) h4 lb2
    have h8 := drop_chain_append s 6 2 8 _ _ (by norm_num) h6 lc2
    have h9 := drop_chain_cons s 8 9 'T' _ (by norm_num) h8
    have h11 := drop_chain_append s 9 2 11 _ _ (by norm_num) h9 ld2
    have h13 := drop_chain_append s 11 2 13 _ _ (by norm_num) h11 le2
    have h15 := drop_chain_append s 13 2 15 _ _ (by norm_num) h13 lf2
    have h16 := drop_chain_cons s 15 16 '.' _ (by norm_num) h15
    have ht4 := take_eq_of_eq_append s _ _ 4 hA la4
    have ht42 := take_eq_of_eq_append (s.drop 4) _ _ 2 h4 lb2
    have ht62 := take_eq_of_eq_append (s.drop 6) _ _ 2 h6 lc2
    have ht92 := take_eq_of_eq_append (s.drop 9) _ _ 2 h9 ld2
    have ht112 := take_eq_of_eq_append (s.drop 11) _ _ 2 h11 le2
    have ht132 := take_eq_of_eq_append (s.drop 13) _ _ 2 h13 lf2
    have hfields : ts_fields_of s .sec =
        ⟨f.year, f.month, f.day, f.hour, f.minute, f.second, 0⟩ := by
      simp only [ts_fields_of, ht4, ht42, ht62, ht92, ht112, ht132,
        parse_padNumInt f.year 4 hy0, parse_padNumInt f.month 2 (by omega),
        parse_padNumInt f.day 2 (by omega), parse_padNumInt f.hour 2 (by omega),
        parse_padNumInt f.minute 2 (by omega), parse_padNumInt f.second 2 (by omega)]
    have ht8 : s.take 8 = padNumInt f.year 4 ++ (padNumInt f.month 2 ++ padNumInt f.day 2) := by
      refine take_eq_of_eq_append s _
        ('T' :: (padNumInt f.hour 2 ++ (padNumInt f.minute 2 ++ (padNumInt f.second 2 ++
          ('.' :: rest))))) 8 ?_ (by simp [la4, lb2, lc2])
      rw [hA]
      simp [List.append_assoc]
    have ht96 : (s.drop 9).take 6 =
        padNumInt f.hour 2 ++ (padNumInt f.minute 2 ++ padNumInt f.second 2) := by
      refine take_eq_of_eq_append (s.drop 9) _ ('.' :: rest) 6 ?_
        (by simp [ld2, le2, lf2])
      rw [h9]
      simp [List.append_assoc]
    refine ⟨⟨getD_of_drop_cons s 8 'T' _ h8, ?_, ?_, ?_, trivial, ?_⟩, hfields, ?_, ?_⟩
    · rw [ht8]
      simp only [List.all_append, Bool.and_eq_true]
      exact ⟨da4, db2, dc2⟩
    · rw [ht96]
      simp only [List.all_append, Bool.and_eq_true]
      exact ⟨dd2, de2, df2⟩
    · rw [hfields]
      exact hymd
    · exact getD_of_drop_cons s 15 '.' _ h15
    · rw [hA]
      simp [la4, lb2, lc2, ld2, le2, lf2, wid_timestamp_len]
      omega
    · exact h16
  | ms =>
    have lg3 : (padNumInt f.millisecond 3).length = 3 :=
      length_padNumInt _ _ (by omega) (by omega) (by omega)
    have dg3 := padNumInt_all_digits f.millisecond 3 (by omega)
    set s := render_timestamp f .ms ++ '.' :: rest with hs
    have hA : s = padNumInt f.year 4 ++ (padNumInt f.month 2 ++ (padNumInt f.day 2 ++
        ('T' :: (padNumInt f.hour 2 ++ (padNumInt f.minute 2 ++ (padNumInt f.second 2 ++
        (padNumInt f.millisecond 3 ++ ('.' :: rest)))))))) := by
      rw [hs]
      simp only [render_timestamp, List.append_assoc, List.cons_append,
        List.nil_append, List.append_nil]
    have h0 : s.drop 0 = padNumInt f.year 4 ++ (padNumInt f.month 2 ++ (padNumInt f.day 2 ++
        ('T' :: (padNumInt f.hour 2 ++ (padNumInt f.minute 2 ++ (padNumInt f.second 2 ++
        (padNumInt f.millisecond 3 ++ ('.' :: rest)))))))) := by
      rw [List.drop_zero]; exact hA
    have h4 := drop_chain_append s 0 4 4 _ _ (by norm_num) h0 la4
    have h6 := drop_chain_append s 4 2 6 _ _ (by norm_num) h4 lb2
    have h8 := drop_chain_append s 6 2 8 _ _ (by norm_num) h6 lc2
    have h9 := drop_chain_cons s 8 9 'T' _ (by norm_num) h8
    have h11 := drop_chain_append s 9 2 11 _ _ (by norm_num) h9 ld2
    have h13 := drop_chain_append s 11 2 13 _ _ (by norm_num) h11 le2
    have h15 := drop_chain_append s 13 2 15 _ _ (by norm_num) h13 lf2
    have h18 := drop_chain_append s 15 3 18 _ _ (by norm_num) h15 lg3
    have h19 := drop_chain_cons s 18 19 '.' _ (by norm_num) h18
    have ht4 := take_eq_of_eq_append s _ _ 4 hA la4
    have ht42 := take_eq_of_eq_append (s.drop 4) _ _ 2 h4 lb2
    have ht62 := take_eq_of_eq_append (s.drop 6) _ _ 2 h6 lc2
    have ht92 := take_eq_of_eq_append (s.drop 9) _ _ 2 h9 ld2
    have ht112 := take_eq_of_eq_append (s.drop 11) _ _ 2 h11 le2
    have ht132 := take_eq_of_eq_append (s.drop 13) _ _ 2 h13 lf2
    have ht153 := take_eq_of_eq_append (s.drop 15) _ _ 3 h15 lg3
    have hfields : ts_fields_of s .ms =
        ⟨f.year, f.month, f.day, f.hour, f.minute, f.second, f.millisecond⟩ := by
      simp only [ts_fields_of, ht4, ht42, ht62, ht92, ht112, ht132, ht153,
        parse_padNumInt f.year 4 hy0, parse_padNumInt f.month 2 (by omega),
        parse_padNumInt f.day 2 (by omega), parse_padNumInt f.hour 2 (by omega),
        parse_padNumInt f.minute 2 (by omega), parse_padNumInt f.second 2 (by omega),
        parse_padNumInt f.millisecond 3 (by omega)]
    have ht8 : s.take 8 = padNumInt f.year 4 ++ (padNumInt f.month 2 ++ padNumInt f.day 2) := by
      refine take_eq_of_eq_append s _
        ('T' :: (padNumInt f.hour 2 ++ (padNumInt f.minute 2 ++ (padNumInt f.second 2 ++
          (padNumInt f.millisecond 3 ++ ('.' :: rest)))))) 8 ?_ (by simp [la4, lb2, lc2])
      rw [hA]
      simp [List.append_assoc]
    have ht96 : (s.drop 9).take 6 =
        padNumInt f.hour 2 ++ (padNumInt f.minute 2 ++ padNumInt f.second 2) := by
      refine take_eq_of_eq_append (s.drop 9) _
        (padNumInt f.millisecond 3 ++ ('.' :: rest)) 6 ?_ (by simp [ld2, le2, lf2])
      rw [h9]
      simp [List.append_assoc]
    refine ⟨⟨getD_of_drop_cons s 8 'T' _ h8, ?_, ?_, ?_, ?_, ?_⟩, hfields, ?_, ?_⟩
    · rw [ht8]
      simp only [List.all_append, Bool.and_eq_true]
      exact ⟨da4, db2, dc2⟩
    · rw [ht96]
      simp only [List.all_append, Bool.and_eq_true]
      exact ⟨dd2, de2, df2⟩
    · rw [hfields]
      exact hymd
    · rw [ht153]
      exact dg3
    · exact getD_of_drop_cons s 18 '.' _ h18
    · rw [hA]
      simp [la4, lb2, lc2, ld2, le2, lf2, lg3, wid_timestamp_len]
      omega
    · exact h19

theorem wid_is_node_char_ne_dash (c : Char) (h : wid_is_node_char c = true) :
    (c != '-') = true := by
  by_contra hne
  simp only [bne_iff_ne, ne_eq, Bool.not_eq_true, Bool.not_eq_false,
    not_not] at hne
  subst hne
  exact absurd h (by decide)

set_option maxHeartbeats 1000000 in
/-- A string assembled per the WID grammar from in-range fields is
accepted by `wid_validate_ex`. -/
theorem wid_validate_render (f : TsFields) (unit : TimeUnit) (W Z seq : Int)
    (sfx : List Char)
    (hymd : wid_valid_ymdhms f.year f.month f.day f.hour f.minute f.second = true)
    (hy0 : 0 ≤ f.year) (hy4 : f.year ≤ 9999)
    (hms0 : 0 ≤ f.millisecond) (hms9 : f.millisecond ≤ 999)
    (hW : 0 < W) (hW18 : W ≤ 18) (hZ : 0 ≤ Z) (hZ64 : Z ≤ 64)
    (hseq0 : 0 ≤ seq) (hseqW : seq < 10 ^ W.toNat)
    (hsfx : wid_valid_suffix sfx Z = true) :
    wid_validate_ex
      (render_timestamp f unit ++ '.' :: (padNumInt seq W.toNat ++ 'Z' :: sfx))
      W Z unit = true := by
  obtain ⟨hchecks, hfields, hlen, hdropts⟩ := ts_render_facts f unit
    (padNumInt seq W.toNat ++ 'Z' :: sfx) hymd hy0 hy4 hms0 hms9
  have lsp : (padNumInt seq W.toNat).length = W.toNat :=
    length_padNumInt _ _ hseq0 hseqW (by omega)
  have hdW : (render_timestamp f unit ++ '.' :: (padNumInt seq W.toNat ++ 'Z' :: sfx)).drop
      (wid_timestamp_len unit + 1 + W.toNat) = 'Z' :: sfx :=
    drop_chain_append _ (wid_timestamp_len unit + 1) W.toNat _ _ _ rfl hdropts lsp
  have hdsfx : (render_timestamp f unit ++ '.' :: (padNumInt seq W.toNat ++ 'Z' :: sfx)).drop
      (wid_timestamp_len unit + 1 + W.toNat + 1) = sfx :=
    drop_chain_cons _ (wid_timestamp_len unit + 1 + W.toNat) _ 'Z' _ rfl hdW
  refine (wid_validate_ex_eq_true_iff _ W Z unit).mpr
    ⟨hW, hZ, hW18, hZ64, ?_, ?_, ?_, ?_, ?_⟩
  · rw [hlen]
    simp only [List.length_append, List.length_cons, lsp]
    omega
  · exact (wid_parse_timestamp_eq_some_iff _ unit _).mpr ⟨hchecks, rfl⟩
  · exact getD_of_drop_cons _ _ 'Z' _ hdW
  · rw [take_eq_of_eq_append _ _ _ _ hdropts lsp]
    exact padNumInt_all_digits seq W.toNat hseq0
  · rw [hdsfx]
    exact hsfx

set_option maxHeartbeats 1000000 in
/-- A string assembled per the HLC-WID grammar from in-range fields is
accepted by `hlc_wid_validate_ex`. -/
theorem hlc_validate_render (f : TsFields) (unit : TimeUnit) (W Z lc : Int)
    (node tail : List Char)
    (hymd : wid_valid_ymdhms f.year f.month f.day f.hour f.minute f.second = true)
    (hy0 : 0 ≤ f.year) (hy4 : f.year ≤ 9999)
    (hms0 : 0 ≤ f.millisecond) (hms9 : f.millisecond ≤ 999)
    (hW : 0 < W) (hW18 : W ≤ 18) (hZ : 0 ≤ Z) (hZ64 : Z ≤ 64)
    (hlc0 : 0 ≤ lc) (hlcW : lc < 10 ^ W.toNat)
    (hnode : node.all wid_is_node_char = true) (hnlen : 0 < node.length)
    (htail : wid_valid_suffix tail Z = true) :
    hlc_wid_validate_ex
      (render_timestamp f unit ++ '.' ::
        (padNumInt lc W.toNat ++ 'Z' :: '-' :: (node ++ tail)))
      W Z unit = true := by
  obtain ⟨hchecks, hfields, hlen, hdropts⟩ := ts_render_facts f unit
    (padNumInt lc W.toNat ++ 'Z' :: '-' :: (node ++ tail)) hymd hy0 hy4 hms0 hms9
  have lsp : (padNumInt lc W.toNat).length = W.toNat :=
    length_padNumInt _ _ hlc0 hlcW (by omega)
  have hdW : (render_timestamp f unit ++ '.' ::
      (padNumInt lc W.toNat ++ 'Z' :: '-' :: (node ++ tail))).drop
      (wid_timestamp_len unit + 1 + W.toNat) = 'Z' :: '-' :: (node ++ tail) :=
    drop_chain_append _ (wid_timestamp_len unit + 1) W.toNat _ _ _ rfl hdropts lsp
  have hdD : (render_timestamp f unit ++ '.' ::
      (padNumInt lc W.toNat ++ 'Z' :: '-' :: (node ++ tail))).drop
      (wid_timestamp_len unit + 1 + W.toNat + 1) = '-' :: (node ++ tail) :=
    drop_chain_cons _ (wid_timestamp_len unit + 1 + W.toNat) _ 'Z' _ rfl hdW
  have hdN : (render_timestamp f unit ++ '.' ::
      (padNumInt lc W.toNat ++ 'Z' :: '-' :: (node ++ tail))).drop
      (wid_timestamp_len unit + 1 + W.toNat + 1 + 1) = node ++ tail :=
    drop_chain_cons _ (wid_timestamp_len unit + 1 + W.toNat + 1) _ '-' _ rfl hdD
  have hnd : ∀ c ∈ node, (c != '-') = true := by
    intro c hc
    exact wid_is_node_char_ne_dash c (by
      rw [List.all_eq_true] at hnode
      exact hnode c hc)
  have htw : (node ++ tail).takeWhile (fun c => c != '-') =
      node ++ tail.takeWhile (fun c => c != '-') :=
    List.takeWhile_append_of_pos hnd
  have hdw : (node ++ tail).dropWhile (fun c => c != '-') =
      tail.dropWhile (fun c => c != '-') :=
    List.dropWhile_append_of_pos hnd
  refine (hlc_wid_validate_ex_eq_true_iff _ W Z unit).mpr
    ⟨hW, hZ, hW18, hZ64, ?_, ?_, ?_, ?_, ?_, ?_, ?_, ?_⟩
  · rw [hlen]
    simp only [List.length_append, List.length_cons, lsp]
    omega
  · exact (wid_parse_timestamp_eq_some_iff _ unit _).mpr ⟨hchecks, rfl⟩
  · exact getD_of_drop_cons _ _ 'Z' _ hdW
  · exact getD_of_drop_cons _ _ '-' _ hdD
  · rw [take_eq_of_eq_append _ _ _ _ hdropts lsp]
    exact padNumInt_all_digits lc W.toNat hlc0
  · rw [hdN, htw]
    rcases tail with _ | ⟨c, pad⟩
    · simpa only [List.takeWhile_nil, List.append_nil] using hnode
    · rw [wid_valid_suffix_cons_iff] at htail
      rw [htail.1]
      simpa only [List.takeWhile_cons, bne_self_eq_false, Bool.false_eq_true,
        if_false, List.append_nil] using hnode
  · rw [hdN, htw]
    rcases tail with _ | ⟨c, pad⟩
    · simp only [List.takeWhile_nil, List.append_nil]
      omega
    · rw [wid_valid_suffix_cons_iff] at htail
      rw [htail.1]
      simp only [List.takeWhile_cons, bne_self_eq_false, Bool.false_eq_true,
        if_false, List.append_nil]
      omega
  · rw [hdN, hdw]
    rcases tail with _ | ⟨c, pad⟩
    · simp only [List.dropWhile_nil]
      rfl
    · rw [wid_valid_suffix_cons_iff] at htail
      rw [htail.1]
      simp only [List.dropWhile_cons, bne_self_eq_false, Bool.false_eq_true,
        if_false]
      rw [wid_valid_suffix_cons_iff]
      exact ⟨rfl, by omega, htail.2.2.1, htail.2.2.2⟩

/-! ### Lemmas: the UTC decomposition yields valid calendar fields -/

theorem daysInYear_pos (y : Int) : 0 < daysInYear y := by
  unfold daysInYear
  split <;> omega

theorem daysInYear_le (y : Int) : daysInYear y ≤ 366 := by
  unfold daysInYear
  split <;> omega

theorem civilYear_spec (days : Nat) : ∀ y : Int,
    (civilYear y days).2 < daysInYear (civilYear y days).1 ∧
    y ≤ (civilYear y days).1 := by
  induction days using Nat.strong_induction_on with
  | _ days ih =>
    intro y
    unfold civilYear
    split
    · rename_i h
      exact ⟨h, le_refl y⟩
    · rename_i h
      have hy := daysInYear_pos y
      have hlt : days - daysInYear y < days := by omega
      have hrec := ih (days - daysInYear y) hlt (y + 1)
      exact ⟨hrec.1, by omega⟩

set_option maxHeartbeats 4000000 in
set_option maxRecDepth 100000 in
theorem monthLoop_valid_int (b : Bool) : ∀ doy : Nat, doy < 366 →
    1 ≤ (monthLoop b 1 doy).1 ∧ (monthLoop b 1 doy).1 ≤ 12 ∧
    (((monthLoop b 1 doy).2 + 1 : Nat) : Int) ≤
      (if (((((monthLoop b 1 doy).1 : Nat) : Int)) = 2 && b) = true then 29
       else days_in_month.getD ((monthLoop b 1 doy).1 - 1) 0) := by
  cases b <;> decide

/-- The calendar fields printed by `wid_fmt_tick`, as parsed values. -/
def fmt_fields (unit : TimeUnit) (tick : Nat) : TsFields :=
  let secs := match unit with | .ms => tick / 1000 | .sec => tick
  let msv : Nat := match unit with | .ms => tick % 1000 | .sec => 0
  let rem := secs % 86400
  let c := civilFromDays (secs / 86400)
  ⟨c.1, (c.2.1 : Int), (c.2.2 : Int), ((rem / 3600 : Nat) : Int),
   ((rem % 3600 / 60 : Nat) : Int), ((rem % 60 : Nat) : Int), (msv : Int)⟩

theorem wid_fmt_tick_eq_render (unit : TimeUnit) (tick : Nat) :
    wid_fmt_tick unit tick = render_timestamp (fmt_fields unit tick) unit := by
  cases unit <;>
    simp only [wid_fmt_tick, fmt_fields, render_timestamp, padNumInt_ofNat]

theorem fmt_fields_valid (unit : TimeUnit) (tick : Nat) :
    wid_valid_ymdhms (fmt_fields unit tick).year (fmt_fields unit tick).month
      (fmt_fields unit tick).day (fmt_fields unit tick).hour
      (fmt_fields unit tick).minute (fmt_fields unit tick).second = true ∧
    1970 ≤ (fmt_fields unit tick).year ∧
    0 ≤ (fmt_fields unit tick).millisecond ∧
    (fmt_fields unit tick).millisecond ≤ 999 := by
  have key : ∀ secs : Nat,
      wid_valid_ymdhms (civilFromDays (secs / 86400)).1
        ((civilFromDays (secs / 86400)).2.1 : Int)
        ((civilFromDays (secs / 86400)).2.2 : Int)
        ((secs % 86400 / 3600 : Nat) : Int)
        ((secs % 86400 % 3600 / 60 : Nat) : Int)
        ((secs % 86400 % 60 : Nat) : Int) = true ∧
      1970 ≤ (civilFromDays (secs / 86400)).1 := by
    intro secs
    have hyd := civilYear_spec (secs / 86400) 1970
    have hml := monthLoop_valid_int
      (wid_is_leap_year (civilYear 1970 (secs / 86400)).1)
      (civilYear 1970 (secs / 86400)).2
      (lt_of_lt_of_le hyd.1 (daysInYear_le _))
    have hrem : secs % 86400 < 86400 := Nat.mod_lt _ (by omega)
    have hh : secs % 86400 / 3600 < 24 := Nat.div_lt_of_lt_mul (by omega)
    have hmi : secs % 86400 % 3600 / 60 < 60 :=
      Nat.div_lt_of_lt_mul (Nat.lt_of_lt_of_le (Nat.mod_lt _ (by omega)) (by omega))
    have hse : secs % 86400 % 60 < 60 := Nat.mod_lt _ (by omega)
    simp only [civilFromDays]
    constructor
    · rw [wid_valid_ymdhms_eq_true_iff]
      refine ⟨by omega, by omega, by omega, by omega, by omega, by omega,
        by omega, by omega, by omega, ?_⟩
      have hml3 := hml.2.2
      have htoNat : ((((monthLoop (wid_is_leap_year (civilYear 1970 (secs / 86400)).1) 1
          (civilYear 1970 (secs / 86400)).2).1 : Nat) : Int)).toNat =
          (monthLoop (wid_is_leap_year (civilYear 1970 (secs / 86400)).1) 1
            (civilYear 1970 (secs / 86400)).2).1 := Int.toNat_ofNat _
      rw [htoNat]
      push_cast
      push_cast at hml3
      convert hml3 using 2
    · exact hyd.2
  cases unit with
  | sec =>
    have hk := key tick
    simp only [fmt_fields]
    exact ⟨hk.1, by have := hk.2; omega, by omega, by omega⟩
  | ms =>
    have hk := key (tick / 1000)
    have hm : tick % 1000 < 1000 := Nat.mod_lt _ (by omega)
    simp only [fmt_fields]
    exact ⟨hk.1, by have := hk.2; omega, by omega, by omega⟩

theorem wid_pow10_i64_eq : ∀ n : Nat, n < 19 → wid_pow10_i64 n = 10 ^ n := by
  decide

/-! ### Lemmas: generator invariants -/

/-- Well-formedness of a WID generator state, established by `init` and
preserved by `next`. -/
def WidGenWF (g : WidGen) : Prop :=
  0 < g.W ∧ g.W ≤ 18 ∧ 0 ≤ g.Z ∧ g.Z ≤ 64 ∧ 0 ≤ g.last_tick ∧
  -1 ≤ g.last_seq ∧ g.last_seq ≤ g.max_seq ∧ g.max_seq = 10 ^ g.W.toNat - 1

theorem pow10_pos (n : Nat) : (0 : Int) < 10 ^ n := pow_pos (by omega) n

theorem widGenWF_mk (W2 Z2 : Int) (unit : TimeUnit) (hW : 0 < W2)
    (hW18 : W2 ≤ 18) (hZ : 0 ≤ Z2) (hZ64 : Z2 ≤ 64) :
    WidGenWF ⟨W2, Z2, unit, 0, -1, wid_pow10_i64 W2.toNat - 1⟩ := by
  have hpow := wid_pow10_i64_eq W2.toNat (by omega)
  have hp := pow10_pos W2.toNat
  exact ⟨hW, hW18, hZ, hZ64, by dsimp only; omega, by dsimp only; omega,
    by dsimp only; omega, by dsimp only; omega⟩

theorem widGenWF_init (W Z : Int) (unit : TimeUnit) :
    WidGenWF (wid_gen_init_ex W Z unit) := by
  simp only [wid_gen_init_ex]
  apply widGenWF_mk <;> split_ifs <;> omega

theorem widGenWF_next (g : WidGen) (now : Int) (h : WidGenWF g) :
    WidGenWF (wid_gen_next_state g now) := by
  obtain ⟨h1, h2, h3, h4, h5, h6, h7, h8⟩ := h
  have hp := pow10_pos g.W.toNat
  unfold wid_gen_next_state
  refine ⟨h1, h2, h3, h4, ?_, ?_, ?_, h8⟩ <;>
    dsimp only <;> split_ifs <;> omega

theorem widReach_wf (g : WidGen) (h : WidReach g) : WidGenWF g := by
  induction h with
  | init W Z unit => exact widGenWF_init W Z unit
  | next g now _ ih => exact widGenWF_next g now ih

/-- Well-formedness of an HLC generator state. -/
def HlcGenWF (g : HlcGen) : Prop :=
  0 < g.W ∧ g.W ≤ 18 ∧ 0 ≤ g.Z ∧ g.Z ≤ 64 ∧ 0 ≤ g.pt ∧ 0 ≤ g.lc ∧
  g.lc ≤ g.max_lc ∧ g.max_lc = 10 ^ g.W.toNat - 1 ∧
  g.node.all wid_is_node_char = true ∧ 0 < g.node.length ∧ g.node.length ≤ 63

theorem hlcGenWF_mk (W2 Z2 : Int) (unit : TimeUnit) (node : List Char)
    (hW : 0 < W2) (hW18 : W2 ≤ 18) (hZ : 0 ≤ Z2) (hZ64 : Z2 ≤ 64)
    (hnode : node.all wid_is_node_char = true) (hne : node ≠ []) :
    HlcGenWF ⟨W2, Z2, unit, node.take 63, 0, 0, wid_pow10_i64 W2.toNat - 1⟩ := by
  have hpow := wid_pow10_i64_eq W2.toNat (by omega)
  have hp := pow10_pos W2.toNat
  have hlenpos : 0 < node.length := List.length_pos.mpr hne
  refine ⟨hW, hW18, hZ, hZ64, by dsimp only; omega, by dsimp only; omega,
    by dsimp only; omega, by dsimp only; omega, ?_, ?_, ?_⟩
  · dsimp only
    rw [List.all_eq_true]
    intro c hc
    rw [List.all_eq_true] at hnode
    exact hnode c (List.mem_of_mem_take hc)
  · dsimp only
    simp only [List.length_take]
    omega
  · dsimp only
    simp only [List.length_take]
    omega

theorem hlcGenWF_init (node : List Char) (W Z : Int) (unit : TimeUnit)
    (g : HlcGen) (h : hlc_wid_gen_init_ex node W Z unit = some g) :
    HlcGenWF g := by
  unfold hlc_wid_gen_init_ex at h
  split at h
  · exact absurd h (by simp)
  rename_i hval
  simp only [Bool.not_eq_true', Bool.not_eq_false] at hval
  rw [wid_valid_node, Bool.and_eq_true] at hval
  have hne : node ≠ [] := by
    intro hnil
    rw [hnil] at hval
    simp at hval
  simp only [Option.some.injEq] at h
  subst h
  apply hlcGenWF_mk _ _ _ _ ?_ ?_ ?_ ?_ hval.2 hne <;> split_ifs <;> omega

/-- Rollover restores the upper bound on `lc`, keeping the rest. -/
theorem hlcGenWF_rollover (g : HlcGen)
    (h1 : 0 < g.W) (h2 : g.W ≤ 18) (h3 : 0 ≤ g.Z) (h4 : g.Z ≤ 64)
    (h5 : 0 ≤ g.pt) (h6 : 0 ≤ g.lc) (h8 : g.max_lc = 10 ^ g.W.toNat - 1)
    (h9 : g.node.all wid_is_node_char = true) (h10 : 0 < g.node.length)
    (h11 : g.node.length ≤ 63) :
    HlcGenWF (hlc_wid_rollover_if_needed g) := by
  have hp := pow10_pos g.W.toNat
  unfold hlc_wid_rollover_if_needed
  split
  · exact ⟨h1, h2, h3, h4, by dsimp only; omega, by dsimp only; omega,
      by dsimp only; omega, h8, h9, h10, h11⟩
  · rename_i hc
    exact ⟨h1, h2, h3, h4, h5, h6, by omega, h8, h9, h10, h11⟩

theorem hlcGenWF_next (g : HlcGen) (now : Int) (h : HlcGenWF g) :
    HlcGenWF (hlc_wid_gen_next_state g now) := by
  obtain ⟨h1, h2, h3, h4, h5, h6, h7, h8, h9, h10, h11⟩ := h
  unfold hlc_wid_gen_next_state
  split
  · rename_i hc
    exact hlcGenWF_rollover _ h1 h2 h3 h4 (by dsimp only; omega)
      (by dsimp only; omega) h8 h9 h10 h11
  · exact hlcGenWF_rollover _ h1 h2 h3 h4 (by dsimp only; omega)
      (by dsimp only; omega) h8 h9 h10 h11

theorem hlcGenWF_observe (g : HlcGen) (now rpt rlc : Int) (g1 : HlcGen)
    (h : HlcGenWF g) (hob : hlc_wid_observe g now rpt rlc = some g1) :
    HlcGenWF g1 := by
  obtain ⟨h1, h2, h3, h4, h5, h6, h7, h8, h9, h10, h11⟩ := h
  unfold hlc_wid_observe at hob
  split at hob
  · exact absurd hob (by simp)
  rename_i hneg
  simp only [Bool.or_eq_true, decide_eq_true_eq, not_or, not_lt] at hneg
  simp only [Option.some.injEq] at hob
  subst hob
  exact hlcGenWF_rollover _ h1 h2 h3 h4
    (by dsimp only; split_ifs <;> omega)
    (by dsimp only; split_ifs <;> omega) h8 h9 h10 h11

theorem hlcReach_wf (g : HlcGen) (h : HlcReach g) : HlcGenWF g := by
  induction h with
  | init node W Z unit g hi => exact hlcGenWF_init node W Z unit g hi
  | next g now _ ih => exact hlcGenWF_next g now ih
  | observe g now rpt rlc g1 _ hob ih => exact hlcGenWF_observe g now rpt rlc g1 ih hob

/-! ### Lemmas: single steps of the generators -/

theorem wid_next_facts (g : WidGen) (now : Int) (h : WidGenWF g) :
    now ≤ (wid_gen_next_state g now).last_tick ∧
    g.last_tick ≤ (wid_gen_next_state g now).last_tick ∧
    0 ≤ (wid_gen_next_state g now).last_seq ∧
    (wid_gen_next_state g now).last_seq ≤ (wid_gen_next_state g now).max_seq ∧
    pairLt (g.last_tick, g.last_seq)
      ((wid_gen_next_state g now).last_tick, (wid_gen_next_state g now).last_seq) := by
  obtain ⟨h1, h2, h3, h4, h5, h6, h7, h8⟩ := h
  have hp := pow10_pos g.W.toNat
  unfold wid_gen_next_state
  simp only [pairLt]
  refine ⟨?_, ?_, ?_, ?_, ?_⟩ <;> dsimp only <;> split_ifs <;> omega

theorem wid_step_new_tick (g : WidGen) (now : Int) (hgt : now > g.last_tick)
    (hmax : 0 ≤ g.max_seq) :
    wid_gen_next_state g now = { g with last_tick := now, last_seq := 0 } := by
  simp only [wid_gen_next_state]
  rw [if_pos hgt, if_neg (show ¬(now = g.last_tick) by omega)]
  rw [if_neg (show ¬((0:Int) > g.max_seq) by omega),
    if_neg (show ¬((0:Int) > g.max_seq) by omega)]

theorem wid_step_same_tick (g : WidGen) (now : Int) (hle : ¬(now > g.last_tick))
    (hok : g.last_seq + 1 ≤ g.max_seq) :
    wid_gen_next_state g now = { g with last_seq := g.last_seq + 1 } := by
  simp only [wid_gen_next_state]
  rw [if_neg hle, if_pos rfl,
    if_neg (show ¬(g.last_seq + 1 > g.max_seq) by omega),
    if_neg (show ¬(g.last_seq + 1 > g.max_seq) by omega)]

theorem wid_step_borrow (g : WidGen) (now : Int) (hle : ¬(now > g.last_tick))
    (hov : g.max_seq < g.last_seq + 1) :
    wid_gen_next_state g now = { g with last_tick := g.last_tick + 1, last_seq := 0 } := by
  simp only [wid_gen_next_state]
  rw [if_neg hle, if_pos rfl,
    if_pos (show g.last_seq + 1 > g.max_seq by omega),
    if_pos (show g.last_seq + 1 > g.max_seq by omega)]

theorem hlc_next_facts (g : HlcGen) (now : Int) (h : HlcGenWF g) :
    g.pt ≤ (hlc_wid_gen_next_state g now).pt ∧
    pairLt (g.pt, g.lc)
      ((hlc_wid_gen_next_state g now).pt, (hlc_wid_gen_next_state g now).lc) := by
  obtain ⟨h1, h2, h3, h4, h5, h6, h7, h8, h9, h10, h11⟩ := h
  unfold hlc_wid_gen_next_state hlc_wid_rollover_if_needed
  simp only [pairLt]
  constructor <;> dsimp only <;> split_ifs <;> dsimp only <;> omega

theorem hlc_observe_facts (g : HlcGen) (now rpt rlc : Int) (g1 : HlcGen)
    (hob : hlc_wid_observe g now rpt rlc = some g1) :
    g.pt ≤ g1.pt ∧ pairLt (rpt, rlc) (g1.pt, g1.lc) ∧
    (0 ≤ g.lc → pairLt (g.pt, g.lc) (g1.pt, g1.lc)) := by
  unfold hlc_wid_observe at hob
  split at hob
  · exact absurd hob (by simp)
  rename_i hneg
  simp only [Bool.or_eq_true, decide_eq_true_eq, not_or, not_lt] at hneg
  simp only [Option.some.injEq] at hob
  subst hob
  unfold hlc_wid_rollover_if_needed
  simp only [pairLt]
  refine ⟨?_, ?_, ?_⟩ <;> dsimp only <;> split_ifs <;> dsimp only <;> omega

/-! ### Lemmas: the emitted strings validate (C2 core) -/

theorem wid_emit_validates (g : WidGen) (hreach : WidReach g) (now : Int)
    (pad : List Char)
    (hpad : wid_random_hex_output pad g.Z.toNat = true)
    (hyear : (fmt_fields g.time_unit
      (wid_gen_next_state g now).last_tick.toNat).year ≤ 9999) :
    wid_validate_ex (wid_gen_emit (wid_gen_next_state g now) pad)
      g.W g.Z g.time_unit = true := by
  have hwf := widReach_wf g hreach
  have hwf2 := widGenWF_next g now hwf
  have hstep := wid_next_facts g now hwf
  obtain ⟨w1, w2, w3, w4, w5, w6, w7, w8⟩ := hwf2
  have hWeq : (wid_gen_next_state g now).W = g.W := by
    unfold wid_gen_next_state
    rfl
  have hZeq : (wid_gen_next_state g now).Z = g.Z := by
    unfold wid_gen_next_state
    rfl
  have hUeq : (wid_gen_next_state g now).time_unit = g.time_unit := by
    unfold wid_gen_next_state
    rfl
  rw [wid_random_hex_output, Bool.and_eq_true, beq_iff_eq] at hpad
  have hfv := fmt_fields_valid g.time_unit (wid_gen_next_state g now).last_tick.toNat
  unfold wid_gen_emit
  rw [hWeq, hZeq, hUeq, wid_fmt_tick_eq_render]
  apply wid_validate_render _ _ _ _ _ _ hfv.1 (by have := hfv.2.1; omega) hyear
    hfv.2.2.1 hfv.2.2.2 (by omega) (by omega) (by omega) (by omega)
    hstep.2.2.1 (by rw [← hWeq]; omega)
  · split_ifs with hZ0
    · rw [wid_valid_suffix_cons_iff]
      exact ⟨rfl, by omega, by omega, hpad.2⟩
    · rfl

theorem hlc_emit_validates (g : HlcGen) (hreach : HlcReach g) (now : Int)
    (pad : List Char)
    (hpad : wid_random_hex_output pad g.Z.toNat = true)
    (hyear : (fmt_fields g.time_unit
      (hlc_wid_gen_next_state g now).pt.toNat).year ≤ 9999) :
    hlc_wid_validate_ex (hlc_wid_gen_emit (hlc_wid_gen_next_state g now) pad)
      g.W g.Z g.time_unit = true := by
  have hwf := hlcReach_wf g hreach
  have hwf2 := hlcGenWF_next g now hwf
  obtain ⟨w1, w2, w3, w4, w5, w6, w7, w8, w9, w10, w11⟩ := hwf2
  have hWeq : (hlc_wid_gen_next_state g now).W = g.W := by
    unfold hlc_wid_gen_next_state hlc_wid_rollover_if_needed
    split <;> split <;> rfl
  have hZeq : (hlc_wid_gen_next_state g now).Z = g.Z := by
    unfold hlc_wid_gen_next_state hlc_wid_rollover_if_needed
    split <;> split <;> rfl
  have hUeq : (hlc_wid_gen_next_state g now).time_unit = g.time_unit := by
    unfold hlc_wid_gen_next_state hlc_wid_rollover_if_needed
    split <;> split <;> rfl
  have hNeq : (hlc_wid_gen_next_state g now).node = g.node := by
    unfold hlc_wid_gen_next_state hlc_wid_rollover_if_needed
    split <;> split <;> rfl
  rw [wid_random_hex_output, Bool.and_eq_true, beq_iff_eq] at hpad
  have hfv := fmt_fields_valid g.time_unit (hlc_wid_gen_next_state g now).pt.toNat
  unfold hlc_wid_gen_emit
  rw [hWeq, hZeq, hUeq, hNeq, wid_fmt_tick_eq_render]
  apply hlc_validate_render _ _ _ _ _ _ _ hfv.1 (by have := hfv.2.1; omega) hyear
    hfv.2.2.1 hfv.2.2.2 (by omega) (by omega) (by omega) (by omega)
    w6 (by rw [← hWeq]; omega) (by rw [← hNeq]; exact w9)
    (by rw [← hNeq]; exact w10)
  · split_ifs with hZ0
    · rw [wid_valid_suffix_cons_iff]
      exact ⟨rfl, by omega, by omega, hpad.2⟩
    · rfl

/-! ### Sample strings for concrete checks -/

/-- The node segment of an HLC-WID: the characters between the `-`
after the counter's `Z` and the next `-` (or the end of the string). -/
def hlc_node_segment (s : List Char) (W : Int) (unit : TimeUnit) : List Char :=
  (s.drop (wid_timestamp_len unit + 1 + W.toNat + 1 + 1)).takeWhile (fun c => c != '-')

/-- Spec scenario 1: a WID with W = 4, Z = 6. -/
def sampleWid : List Char := "20260212T091530.0042Z-a3f91c".toList

/-- Spec scenario 3: an HLC-WID with a `my_node` node and no padding. -/
def sampleHlc : List Char := "20260212T091530.0042Z-my_node".toList

/-- A WID with Z-sized padding absent (accepted by the validator). -/
def noPadWid : List Char := "19700101T000000.0042Z".toList

/-- An HLC-WID whose node is 64 characters long. -/
def longNodeHlc : List Char :=
  ("19700101T000000.0Z-" ++ String.mk (List.replicate 64 'a')).toList

/-- An HLC-WID whose node is 65 characters long. -/
def longNodeHlc2 : List Char :=
  ("19700101T000000.0Z-" ++ String.mk (List.replicate 65 'b')).toList

/-! ### Claim theorems -/

/-- C1, counterexample: the claim as stated is false — this HLC-WID with
a 64-character node is accepted by `hlc_wid_validate_ex` but
`hlc_wid_parse_ex` fails on it, so no parse result can re-render to it. -/
theorem c1_counterexample :
    hlc_wid_validate_ex longNodeHlc 1 0 .sec = true ∧
    hlc_wid_parse_ex longNodeHlc 1 0 .sec = none := by
  constructor
  · decide
  · decide

/-- C1 (amended): if `wid_validate_ex` accepts, `wid_parse_ex` succeeds
and re-rendering the parsed fields at the same width/unit reproduces the
string exactly; for HLC the same holds provided the node segment is
shorter than the 64-byte node buffer. -/
theorem c1_round_trip_amended :
    (∀ (s : List Char) (W Z : Int) (unit : TimeUnit),
      wid_validate_ex s W Z unit = true →
      ∃ p, wid_parse_ex s W Z unit = some p ∧ render_wid p W unit = s) ∧
    (∀ (s : List Char) (W Z : Int) (unit : TimeUnit),
      hlc_wid_validate_ex s W Z unit = true →
      (hlc_node_segment s W unit).length < 64 →
      ∃ p, hlc_wid_parse_ex s W Z unit = some p ∧ render_hlc p W unit = s) :=
  ⟨wid_validate_round_trip,
   fun s W Z unit hv h64 => hlc_validate_round_trip s W Z unit hv h64⟩

/-- C1, witness: the round trip at the spec's concrete scenarios. -/
theorem c1_witness :
    wid_validate_ex sampleWid 4 6 .sec = true ∧
    hlc_wid_validate_ex sampleHlc 4 0 .sec = true ∧
    (hlc_node_segment sampleHlc 4 .sec).length < 64 ∧
    (∃ p, wid_parse_ex sampleWid 4 6 .sec = some p ∧
      render_wid p 4 .sec = sampleWid) ∧
    (∃ p, hlc_wid_parse_ex sampleHlc 4 0 .sec = some p ∧
      render_hlc p 4 .sec = sampleHlc) :=
  ⟨by decide, by decide, by decide,
   c1_round_trip_amended.1 sampleWid 4 6 .sec (by decide),
   c1_round_trip_amended.2 sampleHlc 4 0 .sec (by decide) (by decide)⟩

/-- C3, counterexample: parse-iff-validate fails — this HLC-WID with a
65-character node validates but does not parse. -/
theorem c3_counterexample :
    hlc_wid_validate_ex longNodeHlc2 1 0 .sec = true ∧
    (hlc_wid_parse_ex longNodeHlc2 1 0 .sec).isSome = false := by
  constructor
  · decide
  · decide

/-- C3 (amended): `wid_parse_ex` succeeds exactly when `wid_validate_ex`
accepts; `hlc_wid_parse_ex` succeeds exactly when `hlc_wid_validate_ex`
accepts and the node segment is shorter than 64 characters. -/
theorem c3_parse_iff_validate_amended :
    (∀ (s : List Char) (W Z : Int) (unit : TimeUnit),
      (wid_parse_ex s W Z unit).isSome = wid_validate_ex s W Z unit) ∧
    (∀ (s : List Char) (W Z : Int) (unit : TimeUnit),
      (hlc_wid_parse_ex s W Z unit).isSome =
        (hlc_wid_validate_ex s W Z unit &&
          decide ((hlc_node_segment s W unit).length < 64))) :=
  ⟨wid_parse_ex_isSome_eq, fun s W Z unit => hlc_wid_parse_ex_isSome_eq s W Z unit⟩

/-- C4, counterexample: with Z = 6 the validator accepts this WID that
contains no `-` at all, hence no padding segment — padding is optional,
not mandatory, when Z > 0. -/
theorem c4_counterexample :
    wid_validate_ex noPadWid 4 6 .sec = true ∧ ¬('-' ∈ noPadWid) := by
  constructor
  · decide
  · decide

/-- C4 (amended): when Z > 0 the validator accepts only strings whose
suffix after the literal `Z` is either empty or a `-` followed by
exactly Z lowercase hex digits; when Z = 0 any non-empty suffix is
rejected. -/
theorem c4_suffix_amended :
    ∀ (s : List Char) (W Z : Int) (unit : TimeUnit),
      wid_validate_ex s W Z unit = true →
      (0 < Z →
        s.drop (wid_timestamp_len unit + 1 + W.toNat + 1) = [] ∨
        ∃ pad, s.drop (wid_timestamp_len unit + 1 + W.toNat + 1) = '-' :: pad ∧
          (pad.length : Int) = Z ∧ pad.all wid_is_lower_hex = true) ∧
      (Z = 0 → s.drop (wid_timestamp_len unit + 1 + W.toNat + 1) = []) := by
  intro s W Z unit hv
  obtain ⟨hW, hZ, hW18, hZ64, hlen, hsome, hZch, hdig, hsuf⟩ :=
    (wid_validate_ex_eq_true_iff s W Z unit).mp hv
  constructor
  · intro _
    rcases hd : s.drop (wid_timestamp_len unit + 1 + W.toNat + 1) with _ | ⟨c, pad⟩
    · exact Or.inl rfl
    · rw [hd, wid_valid_suffix_cons_iff] at hsuf
      exact Or.inr ⟨pad, by rw [hsuf.1], hsuf.2.2.1, hsuf.2.2.2⟩
  · intro hZ0
    rcases hd : s.drop (wid_timestamp_len unit + 1 + W.toNat + 1) with _ | ⟨c, pad⟩
    · rfl
    · rw [hd, wid_valid_suffix_cons_iff] at hsuf
      exact absurd hsuf.2.1 (by omega)

/-- C4, witness: the amended suffix characterization at the no-padding
sample with Z = 0. -/
theorem c4_witness :
    wid_validate_ex noPadWid 4 0 .sec = true ∧
    ((0 < (0 : Int) →
      noPadWid.drop (wid_timestamp_len .sec + 1 + (4 : Int).toNat + 1) = [] ∨
      ∃ pad, noPadWid.drop (wid_timestamp_len .sec + 1 + (4 : Int).toNat + 1) =
          '-' :: pad ∧ (pad.length : Int) = 0 ∧ pad.all wid_is_lower_hex = true) ∧
     ((0 : Int) = 0 →
      noPadWid.drop (wid_timestamp_len .sec + 1 + (4 : Int).toNat + 1) = [])) :=
  ⟨by decide, c4_suffix_amended noPadWid 4 0 .sec (by decide)⟩

/-- C5: on every reachable WID generator state, a step of
`wid_gen_next_state` yields a tick at least `now`, a sequence in
`[0, max_seq]`, a non-decreasing tick, and a strictly increasing
(tick, seq) pair. -/
theorem c5_widgen_invariants :
    ∀ (g : WidGen) (now : Int), WidReach g →
      now ≤ (wid_gen_next_state g now).last_tick ∧
      0 ≤ (wid_gen_next_state g now).last_seq ∧
      (wid_gen_next_state g now).last_seq ≤ (wid_gen_next_state g now).max_seq ∧
      g.last_tick ≤ (wid_gen_next_state g now).last_tick ∧
      pairLt (g.last_tick, g.last_seq)
        ((wid_gen_next_state g now).last_tick, (wid_gen_next_state g now).last_seq) := by
  intro g now h
  have hf := wid_next_facts g now (widReach_wf g h)
  exact ⟨hf.1, hf.2.2.1, hf.2.2.2.1, hf.2.1, hf.2.2.2.2⟩

/-- C5, witness: the invariants on one concrete step from the freshly
initialized generator. -/
theorem c5_witness :
    (5 : Int) ≤ (wid_gen_next_state (wid_gen_init_ex 4 6 .sec) 5).last_tick ∧
    0 ≤ (wid_gen_next_state (wid_gen_init_ex 4 6 .sec) 5).last_seq ∧
    (wid_gen_next_state (wid_gen_init_ex 4 6 .sec) 5).last_seq ≤
      (wid_gen_next_state (wid_gen_init_ex 4 6 .sec) 5).max_seq ∧
    (wid_gen_init_ex 4 6 .sec).last_tick ≤
      (wid_gen_next_state (wid_gen_init_ex 4 6 .sec) 5).last_tick ∧
    pairLt ((wid_gen_init_ex 4 6 .sec).last_tick, (wid_gen_init_ex 4 6 .sec).last_seq)
      ((wid_gen_next_state (wid_gen_init_ex 4 6 .sec) 5).last_tick,
       (wid_gen_next_state (wid_gen_init_ex 4 6 .sec) 5).last_seq) :=
  c5_widgen_invariants (wid_gen_init_ex 4 6 .sec) 5 (WidReach.init 4 6 .sec)

/-- C6: when the clock has not advanced past `last_tick` and the
incremented sequence would exceed `max_seq`, the generator borrows a
tick (`last_tick + 1`, sequence reset to 0); consequently with W = 1
(`max_seq` = 9), twelve calls at a frozen clock T leave `last_tick`
strictly above its value after one call. -/
theorem c6_tick_borrow :
    (∀ (g : WidGen) (now : Int),
      (if now > g.last_tick then now else g.last_tick) = g.last_tick →
      g.last_seq + 1 > g.max_seq →
      (wid_gen_next_state g now).last_tick = g.last_tick + 1 ∧
      (wid_gen_next_state g now).last_seq = 0) ∧
    (∀ T : Int, 0 ≤ T →
      (wid_gen_iterate (wid_gen_init_ex 1 0 .sec) T 1).last_tick <
      (wid_gen_iterate (wid_gen_init_ex 1 0 .sec) T 12).last_tick) := by
  constructor
  · intro g now hcond hov
    have hnle : ¬(now > g.last_tick) := by
      intro hgt
      rw [if_pos hgt] at hcond
      omega
    rw [wid_step_borrow g now hnle hov]
    exact ⟨rfl, rfl⟩
  · intro T hT
    have hg0 : wid_gen_init_ex 1 0 .sec = ⟨1, 0, .sec, 0, -1, 9⟩ := by decide
    rw [hg0]
    have e1 : wid_gen_iterate (⟨1, 0, .sec, 0, -1, 9⟩ : WidGen) T 1 =
        ⟨1, 0, .sec, T, 0, 9⟩ := by
      show wid_gen_next_state (wid_gen_iterate (⟨1, 0, .sec, 0, -1, 9⟩ : WidGen) T 0) T = _
      rw [show wid_gen_iterate (⟨1, 0, .sec, 0, -1, 9⟩ : WidGen) T 0 =
          (⟨1, 0, .sec, 0, -1, 9⟩ : WidGen) from rfl]
      by_cases hTpos : T > 0
      · rw [wid_step_new_tick _ _ hTpos (by dsimp only; omega)]
      · have hT0 : T = 0 := by omega
        subst hT0
        rw [wid_step_same_tick _ _ (by dsimp only; omega) (by dsimp only; omega)]
        rfl
    have step_same : ∀ a : Int, -1 ≤ a → a + 1 ≤ 9 →
        wid_gen_next_state (⟨1, 0, .sec, T, a, 9⟩ : WidGen) T =
          ⟨1, 0, .sec, T, a + 1, 9⟩ := by
      intro a _ hle
      rw [wid_step_same_tick _ _ (by dsimp only; omega) (by dsimp only; omega)]
    have e2 : wid_gen_iterate (⟨1, 0, .sec, 0, -1, 9⟩ : WidGen) T 2 =
        ⟨1, 0, .sec, T, 1, 9⟩ := by
      show wid_gen_next_state (wid_gen_iterate (⟨1, 0, .sec, 0, -1, 9⟩ : WidGen) T 1) T = _
      rw [e1, step_same 0 (by omega) (by omega)]
      rfl
    have e3 : wid_gen_iterate (⟨1, 0, .sec, 0, -1, 9⟩ : WidGen) T 3 =
        ⟨1, 0, .sec, T, 2, 9⟩ := by
      show wid_gen_next_state (wid_gen_iterate (⟨1, 0, .sec, 0, -1, 9⟩ : WidGen) T 2) T = _
      rw [e2, step_same 1 (by omega) (by omega)]
      rfl
    have e4 : wid_gen_iterate (⟨1, 0, .sec, 0, -1, 9⟩ : WidGen) T 4 =
        ⟨1, 0, .sec, T, 3, 9⟩ := by
      show wid_gen_next_state (wid_gen_iterate (⟨1, 0, .sec, 0, -1, 9⟩ : WidGen) T 3) T = _
      rw [e3, step_same 2 (by omega) (by omega)]
      rfl
    have e5 : wid_gen_iterate (⟨1, 0, .sec, 0, -1, 9⟩ : WidGen) T 5 =
        ⟨1, 0, .sec, T, 4, 9⟩ := by
      show wid_gen_next_state (wid_gen_iterate (⟨1, 0, .sec, 0, -1, 9⟩ : WidGen) T 4) T = _
      rw [e4, step_same 3 (by omega) (by omega)]
      rfl
    have e6 : wid_gen_iterate (⟨1, 0, .sec, 0, -1, 9⟩ : WidGen) T 6 =
        ⟨1, 0, .sec, T, 5, 9⟩ := by
      show wid_gen_next_state (wid_gen_iterate (⟨1, 0, .sec, 0, -1, 9⟩ : WidGen) T 5) T = _
      rw [e5, step_same 4 (by omega) (by omega)]
      rfl
    have e7 : wid_gen_iterate (⟨1, 0, .sec, 0, -1, 9⟩ : WidGen) T 7 =
        ⟨1, 0, .sec, T, 6, 9⟩ := by
      show wid_gen_next_state (wid_gen_iterate (⟨1, 0, .sec, 0, -1, 9⟩ : WidGen) T 6) T = _
      rw [e6, step_same 5 (by omega) (by omega)]
      rfl
    have e8 : wid_gen_iterate (⟨1, 0, .sec, 0, -1, 9⟩ : WidGen) T 8 =
        ⟨1, 0, .sec, T, 7, 9⟩ := by
      show wid_gen_next_state (wid_gen_iterate (⟨1, 0, .sec, 0, -1, 9⟩ : WidGen) T 7) T = _
      rw [e7, step_same 6 (by omega) (by omega)]
      rfl
    have e9 : wid_gen_iterate (⟨1, 0, .sec, 0, -1, 9⟩ : WidGen) T 9 =
        ⟨1, 0, .sec, T, 8, 9⟩ := by
      show wid_gen_next_state (wid_gen_iterate (⟨1, 0, .sec, 0, -1, 9⟩ : WidGen) T 8) T = _
      rw [e8, step_same 7 (by omega) (by omega)]
      rfl
    have e10 : wid_gen_iterate (⟨1, 0, .sec, 0, -1, 9⟩ : WidGen) T 10 =
        ⟨1, 0, .sec, T, 9, 9⟩ := by
      show wid_gen_next_state (wid_gen_iterate (⟨1, 0, .sec, 0, -1, 9⟩ : WidGen) T 9) T = _
      rw [e9, step_same 8 (by omega) (by omega)]
      rfl
    have e11 : wid_gen_iterate (⟨1, 0, .sec, 0, -1, 9⟩ : WidGen) T 11 =
        ⟨1, 0, .sec, T + 1, 0, 9⟩ := by
      show wid_gen_next_state (wid_gen_iterate (⟨1, 0, .sec, 0, -1, 9⟩ : WidGen) T 10) T = _
      rw [e10, wid_step_borrow _ _ (by dsimp only; omega) (by dsimp only; omega)]
    have e12 : wid_gen_iterate (⟨1, 0, .sec, 0, -1, 9⟩ : WidGen) T 12 =
        ⟨1, 0, .sec, T + 1, 1, 9⟩ := by
      show wid_gen_next_state (wid_gen_iterate (⟨1, 0, .sec, 0, -1, 9⟩ : WidGen) T 11) T = _
      rw [e11, wid_step_same_tick _ _ (by dsimp only; omega) (by dsimp only; omega)]
      rfl
    rw [e1, e12]
    dsimp only
    omega

/-- C6, witness: the borrow branch at a concrete state, and the
twelve-call scenario at T = 7. -/
theorem c6_witness :
    ((if (7 : Int) > (7 : Int) then (7 : Int) else (7 : Int)) = (7 : Int) ∧
     (9 : Int) + 1 > (9 : Int) ∧
     (wid_gen_next_state (⟨1, 0, .sec, 7, 9, 9⟩ : WidGen) 7).last_tick = 7 + 1 ∧
     (wid_gen_next_state (⟨1, 0, .sec, 7, 9, 9⟩ : WidGen) 7).last_seq = 0) ∧
    (0 ≤ (7 : Int) ∧
     (wid_gen_iterate (wid_gen_init_ex 1 0 .sec) 7 1).last_tick <
     (wid_gen_iterate (wid_gen_init_ex 1 0 .sec) 7 12).last_tick) :=
  ⟨⟨by decide, by decide,
    c6_tick_borrow.1 (⟨1, 0, .sec, 7, 9, 9⟩ : WidGen) 7 (by decide) (by decide)⟩,
   by decide, c6_tick_borrow.2 7 (by decide)⟩

/-- C7: whenever `hlc_wid_observe` succeeds, the resulting (pt, lc) is
strictly greater than the observed remote pair (rpt, rlc) in
lexicographic order; in particular observing (T, 9) from local state
(T, 3) yields (T, 10). -/
theorem c7_observe_dominates :
    (∀ (g : HlcGen) (now rpt rlc : Int) (g1 : HlcGen),
      hlc_wid_observe g now rpt rlc = some g1 →
      pairLt (rpt, rlc) (g1.pt, g1.lc)) ∧
    (∀ T : Int, 0 ≤ T →
      hlc_wid_observe (⟨4, 0, .sec, ['n'], T, 3, 9999⟩ : HlcGen) T T 9 =
        some (⟨4, 0, .sec, ['n'], T, 10, 9999⟩ : HlcGen)) := by
  constructor
  · intro g now rpt rlc g1 hob
    exact (hlc_observe_facts g now rpt rlc g1 hob).2.1
  · intro T hT
    simp only [hlc_wid_observe]
    rw [if_neg (show ¬((decide (T < 0) || decide ((9 : Int) < 0)) = true) by
      simp only [Bool.or_eq_true, decide_eq_true_eq]
      rintro (h | h) <;> omega)]
    rw [if_neg (lt_irrefl T), if_neg (lt_irrefl T), if_pos ⟨rfl, rfl⟩,
      if_neg (show ¬((3 : Int) > 9) by omega)]
    simp only [hlc_wid_rollover_if_needed]
    rw [if_neg (show ¬((9 : Int) + 1 > 9999) by omega)]
    norm_num

/-- C7, witness: the success case of observe at a fully concrete state
with T = 5. -/
theorem c7_witness :
    hlc_wid_observe (⟨4, 0, .sec, ['n'], 5, 3, 9999⟩ : HlcGen) 5 5 9 =
        some (⟨4, 0, .sec, ['n'], 5, 10, 9999⟩ : HlcGen) ∧
    pairLt (5, 9)
      ((⟨4, 0, .sec, ['n'], 5, 10, 9999⟩ : HlcGen).pt,
       (⟨4, 0, .sec, ['n'], 5, 10, 9999⟩ : HlcGen).lc) :=
  ⟨c7_observe_dominates.2 5 (by decide),
   c7_observe_dominates.1 (⟨4, 0, .sec, ['n'], 5, 3, 9999⟩ : HlcGen) 5 5 9
     (⟨4, 0, .sec, ['n'], 5, 10, 9999⟩ : HlcGen) (c7_observe_dominates.2 5 (by decide))⟩

/-- C8: on every reachable HLC generator state the logical counter stays
in `[0, max_lc]`, and both `hlc_wid_gen_next_state` and a successful
`hlc_wid_observe` keep `pt` non-decreasing and strictly increase the
(pt, lc) pair lexicographically. -/
theorem c8_hlcgen_invariants :
    ∀ (g : HlcGen), HlcReach g →
      (0 ≤ g.lc ∧ g.lc ≤ g.max_lc) ∧
      (∀ now : Int, g.pt ≤ (hlc_wid_gen_next_state g now).pt ∧
        pairLt (g.pt, g.lc)
          ((hlc_wid_gen_next_state g now).pt, (hlc_wid_gen_next_state g now).lc)) ∧
      (∀ (now rpt rlc : Int) (g1 : HlcGen),
        hlc_wid_observe g now rpt rlc = some g1 →
        g.pt ≤ g1.pt ∧ pairLt (g.pt, g.lc) (g1.pt, g1.lc)) := by
  intro g hreach
  have hwf := hlcReach_wf g hreach
  refine ⟨⟨hwf.2.2.2.2.2.1, hwf.2.2.2.2.2.2.1⟩, ?_, ?_⟩
  · intro now
    exact hlc_next_facts g now hwf
  · intro now rpt rlc g1 hob
    have hfacts := hlc_observe_facts g now rpt rlc g1 hob
    exact ⟨hfacts.1, hfacts.2.2 hwf.2.2.2.2.2.1⟩

/-- C8, witness: the invariants on the freshly initialized HLC generator
stepped at now = 3. -/
theorem c8_witness :
    0 ≤ (⟨4, 0, .ms, "node1".toList, 0, 0, 9999⟩ : HlcGen).lc ∧
    (⟨4, 0, .ms, "node1".toList, 0, 0, 9999⟩ : HlcGen).lc ≤
      (⟨4, 0, .ms, "node1".toList, 0, 0, 9999⟩ : HlcGen).max_lc ∧
    pairLt ((⟨4, 0, .ms, "node1".toList, 0, 0, 9999⟩ : HlcGen).pt,
            (⟨4, 0, .ms, "node1".toList, 0, 0, 9999⟩ : HlcGen).lc)
      ((hlc_wid_gen_next_state (⟨4, 0, .ms, "node1".toList, 0, 0, 9999⟩ : HlcGen) 3).pt,
       (hlc_wid_gen_next_state (⟨4, 0, .ms, "node1".toList, 0, 0, 9999⟩ : HlcGen) 3).lc) :=
  have hr : HlcReach (⟨4, 0, .ms, "node1".toList, 0, 0, 9999⟩ : HlcGen) :=
    HlcReach.init "node1".toList 4 0 .ms _ (by decide)
  have h := c8_hlcgen_invariants (⟨4, 0, .ms, "node1".toList, 0, 0, 9999⟩ : HlcGen) hr
  ⟨h.1.1, h.1.2, (h.2.1 3).2⟩

/-- C2: every string emitted by a reachable WID generator after a
`wid_gen_next_state` step, with padding bytes satisfying the
`wid_random_hex` output contract, passes `wid_validate_ex` at the
generator's own W, Z and time unit — and likewise for HLC emission and
`hlc_wid_validate_ex` — provided the formatted year fits in four
digits. -/
theorem c2_emitted_strings_validate :
    (∀ (g : WidGen), WidReach g → ∀ (now : Int) (pad : List Char),
      wid_random_hex_output pad g.Z.toNat = true →
      (fmt_fields g.time_unit (wid_gen_next_state g now).last_tick.toNat).year ≤ 9999 →
      wid_validate_ex (wid_gen_emit (wid_gen_next_state g now) pad)
        g.W g.Z g.time_unit = true) ∧
    (∀ (g : HlcGen), HlcReach g → ∀ (now : Int) (pad : List Char),
      wid_random_hex_output pad g.Z.toNat = true →
      (fmt_fields g.time_unit (hlc_wid_gen_next_state g now).pt.toNat).year ≤ 9999 →
      hlc_wid_validate_ex (hlc_wid_gen_emit (hlc_wid_gen_next_state g now) pad)
        g.W g.Z g.time_unit = true) :=
  ⟨fun g hr now pad hpad hy => wid_emit_validates g hr now pad hpad hy,
   fun g hr now pad hpad hy => hlc_emit_validates g hr now pad hpad hy⟩

/-- C2, witness: a concrete emission from the freshly initialized WID
generator at tick 0 validates. -/
theorem c2_witness :
    wid_random_hex_output "abc123".toList (wid_gen_init_ex 4 6 .sec).Z.toNat = true ∧
    (fmt_fields (wid_gen_init_ex 4 6 .sec).time_unit
      (wid_gen_next_state (wid_gen_init_ex 4 6 .sec) 0).last_tick.toNat).year ≤ 9999 ∧
    wid_validate_ex
      (wid_gen_emit (wid_gen_next_state (wid_gen_init_ex 4 6 .sec) 0) "abc123".toList)
      (wid_gen_init_ex 4 6 .sec).W (wid_gen_init_ex 4 6 .sec).Z
      (wid_gen_init_ex 4 6 .sec).time_unit :=
  have hy : (fmt_fields (wid_gen_init_ex 4 6 .sec).time_unit
      (wid_gen_next_state (wid_gen_init_ex 4 6 .sec) 0).last_tick.toNat).year ≤ 9999 := by
    have h1 : (wid_gen_init_ex 4 6 .sec).time_unit = .sec := by decide
    have h2 : (wid_gen_next_state (wid_gen_init_ex 4 6 .sec) 0).last_tick.toNat = 0 := by
      decide
    rw [h1, h2]
    show (fmt_fields .sec 0).year ≤ 9999
    simp only [fmt_fields, civilFromDays]
    rw [civilYear]
    norm_num [daysInYear, wid_is_leap_year]
  ⟨by decide, hy,
   c2_emitted_strings_validate.1 (wid_gen_init_ex 4 6 .sec) (WidReach.init 4 6 .sec)
     0 "abc123".toList (by decide) hy⟩

/-- C9, counterexample: initialization does not fail on out-of-range
W and Z — the HLC initializer succeeds at W = 99, Z = 99, and the WID
initializer substitutes the clamped values 18 and 6 at W = 99,
Z = −5. -/
theorem c9_counterexample :
    (hlc_wid_gen_init_ex ['n'] 99 99 .sec).isSome = true ∧
    (wid_gen_init_ex 99 (-5) .sec).W = 18 ∧
    (wid_gen_init_ex 99 (-5) .sec).Z = 6 := by
  refine ⟨?_, ?_, ?_⟩ <;> decide

/-- C9 (amended): both initializers clamp W into [1, 18] (default 4 when
W ≤ 0) and Z into [0, 64] (default 6 for WID / floor 0 for HLC when
Z < 0), and in-range values pass through unchanged; the only failure is
the HLC initializer rejecting exactly the nodes refused by
`wid_valid_node`. -/
theorem c9_init_amended :
    (∀ (W Z : Int) (unit : TimeUnit),
      0 < (wid_gen_init_ex W Z unit).W ∧ (wid_gen_init_ex W Z unit).W ≤ 18 ∧
      0 ≤ (wid_gen_init_ex W Z unit).Z ∧ (wid_gen_init_ex W Z unit).Z ≤ 64 ∧
      (W ≤ 0 → (wid_gen_init_ex W Z unit).W = 4) ∧
      (Z < 0 → (wid_gen_init_ex W Z unit).Z = 6) ∧
      (18 < W → (wid_gen_init_ex W Z unit).W = 18) ∧
      (64 < Z → (wid_gen_init_ex W Z unit).Z = 64) ∧
      (0 < W → W ≤ 18 → (wid_gen_init_ex W Z unit).W = W) ∧
      (0 ≤ Z → Z ≤ 64 → (wid_gen_init_ex W Z unit).Z = Z)) ∧
    (∀ (node : List Char) (W Z : Int) (unit : TimeUnit),
      (hlc_wid_gen_init_ex node W Z unit).isSome = wid_valid_node node) := by
  constructor
  · intro W Z unit
    simp only [wid_gen_init_ex]
    refine ⟨?_, ?_, ?_, ?_, ?_, ?_, ?_, ?_, ?_, ?_⟩ <;>
      (dsimp only; split_ifs <;> omega)
  · intro node W Z unit
    by_cases hn : wid_valid_node node = true
    · rw [hn]
      simp only [hlc_wid_gen_init_ex, hn, Bool.not_true]
      rw [if_neg (by simp)]
      rfl
    · rw [Bool.not_eq_true] at hn
      rw [hn]
      simp only [hlc_wid_gen_init_ex, hn, Bool.not_false]
      simp

/-- C9, witness: clamping at concrete out-of-range inputs, and the HLC
failure channel at a node containing `-`. -/
theorem c9_witness :
    (wid_gen_init_ex 0 (-1) .ms).W = 4 ∧
    (wid_gen_init_ex 0 (-1) .ms).Z = 6 ∧
    (wid_gen_init_ex 99 70 .ms).W = 18 ∧
    (wid_gen_init_ex 99 70 .ms).Z = 64 ∧
    (wid_gen_init_ex 7 3 .ms).W = 7 ∧
    (wid_gen_init_ex 7 3 .ms).Z = 3 ∧
    (hlc_wid_gen_init_ex "bad-node".toList 4 0 .sec).isSome =
      wid_valid_node "bad-node".toList :=
  ⟨(c9_init_amended.1 0 (-1) .ms).2.2.2.2.1 (by omega),
   (c9_init_amended.1 0 (-1) .ms).2.2.2.2.2.1 (by omega),
   (c9_init_amended.1 99 70 .ms).2.2.2.2.2.2.1 (by omega),
   (c9_init_amended.1 99 70 .ms).2.2.2.2.2.2.2.1 (by omega),
   (c9_init_amended.1 7 3 .ms).2.2.2.2.2.2.2.2.1 (by omega) (by omega),
   (c9_init_amended.1 7 3 .ms).2.2.2.2.2.2.2.2.2 (by omega) (by omega),
   c9_init_amended.2 "bad-node".toList 4 0 .sec⟩

/-- C10: `hlc_wid_parse_ex` fails on every string whose node segment is
64 characters or longer, even though `hlc_wid_validate_ex` places no
upper bound on the node length — it accepts the concrete 64-character
node sample. -/
theorem c10_node_length_bound :
    (∀ (s : List Char) (W Z : Int) (unit : TimeUnit),
      64 ≤ (hlc_node_segment s W unit).length →
      hlc_wid_parse_ex s W Z unit = none) ∧
    (hlc_wid_validate_ex longNodeHlc 1 0 .sec = true ∧
      64 ≤ (hlc_node_segment longNodeHlc 1 .sec).length) := by
  constructor
  · intro s W Z unit h
    have hiso := hlc_wid_parse_ex_isSome_eq s W Z unit
    have hdec : decide ((((s.drop (wid_timestamp_len unit + 1 + W.toNat + 1 + 1)).takeWhile
        (fun c => c != '-')).length) < 64) = false := by
      rw [decide_eq_false_iff_not]
      rw [hlc_node_segment] at h
      omega
    rw [hdec, Bool.and_false] at hiso
    rcases hp : hlc_wid_parse_ex s W Z unit with _ | p
    · rfl
    · rw [hp] at hiso
      simp at hiso
  · exact ⟨by decide, by decide⟩

/-- C10, witness: the parse failure at the 64-character-node sample. -/
theorem c10_witness :
    64 ≤ (hlc_node_segment longNodeHlc 1 .sec).length ∧
    hlc_wid_parse_ex longNodeHlc 1 0 .sec = none :=
  ⟨by decide, c10_node_length_bound.1 longNodeHlc 1 0 .sec (by decide)⟩

end Wid
